import Mathlib

/-!
Verification development for the Global Titan Engine backtester
(src/global_engine_titan.py): a momentum/volatility ranking strategy with
weekly rebalancing, a hard stop-loss, and an IBKR-style commission model.

Modelling conventions (shallow embedding of the Python source):
  * Python floats are modelled by exact rationals; the only place a value is
    genuinely irrational is the raw score momentum / std(returns) and the
    weights derived from it, which are modelled over the reals
    (std = Real.sqrt of the sample variance).
  * A missing price (ticker absent from a row, or NaN) is modelled as
    Option.none.
  * pandas DataFrames are modelled columnwise: a price table is a list of
    dates, a list of ticker columns, and a price function.  pct_change is
    modelled without forward-filling (a NaN price yields a NaN return at the
    gap and at the following row), and DataFrame.dropna drops every row that
    has a missing value in any column, as in the source pipeline
    window.pct_change().dropna().
  * Dates are modelled as day numbers with Monday-based weekdays, so
    pandas dayofweek == 4 (Friday) becomes date % 7 == 4.
  * Python dicts are modelled as association lists in insertion order
    (Python dicts preserve insertion order); dict overwrite on duplicate
    keys is modelled by consing, so that lookup finds the latest binding.
-/

/-! ## Configuration constants (source lines 29-40) -/

def INITIAL_CAPITAL : ℚ := 100000

def LOOKBACK_MOM : ℕ := 90

def LOOKBACK_VOL : ℕ := 30

def TOP_N : ℕ := 25

def MAX_SECTOR_WEIGHT : ℚ := 35/100

def STOP_LOSS_PCT : ℚ := -(7/100)

/-- REBALANCE_DAY = "Friday"; with Monday-based weekday numbering as in
pandas Index.dayofweek, Friday is weekday 4. -/
def REBALANCE_WEEKDAY : ℕ := 4

def COMMISSION_RATE : ℚ := 5/10000

def MIN_COMMISSION : ℚ := 1

def MAX_COMMISSION_PCT : ℚ := 5/1000

/-! ## Commission model (source lines 147-152) -/

/-- IBKR tiered commission model: comm = abs(v) * rate, raised to the floor
MIN_COMMISSION, then capped at abs(v) * MAX_COMMISSION_PCT. -/
def calc_commission (trade_value : ℚ) : ℚ :=
  min (max (|trade_value| * COMMISSION_RATE) MIN_COMMISSION)
    (|trade_value| * MAX_COMMISSION_PCT)

/-! ## Asset universe (source lines 46-121) and category lookup (141-144) -/

/-- The asset universe: category name to ticker list, transcribed from the source dict. -/
def UNIVERSE : List (String × List String) := [
  ("Aggressive Growth", ["TSLA", "NVDA", "AMD", "PLTR", "SHOP", "MELI", "SE", "DDOG", "NET", "SNOW", "CRWD", "ZS",
    "MDB", "ENPH", "SEDG", "FSLR", "ARKG", "ARKK", "ARKW", "ARKF", "SOXX", "SMH", "XBI", "IBB",
    "GNOM", "BITQ", "BLOK", "BITO", "KWEB", "CQQQ", "EMQQ", "IUIT.L", "EQQQ.L", "VUSA.L",
    "QDVE.DE", "VGWL.DE", "IS3N.DE", "SXR8.DE", "DFEN", "SOXL", "TQQQ", "TECL", "UPRO", "SPXL",
    "FAS", "LABU", "TNA", "NAIL", "BULZ", "FNGU", "WEBL", "DPST", "HIBL", "CURE", "DUSL", "RETL",
    "MIDU", "WANT", "PILL", "TPOR", "UTSL", "LIT", "REMX", "COPX", "URA", "URNM", "QCLN", "TAN",
    "FAN", "ICLN", "PBW", "CNRG", "ACES", "SMOG", "ERTH", "CTEC", "DRIV", "IDRV", "KARS", "SIL",
    "SILJ", "GDXJ", "GOAU", "RING", "SGDM", "SGDJ", "SLV", "PSLV", "SIVR", "GDX", "GLD", "IAU",
    "PHYS", "AAAU", "BAR", "SGOL", "OUNZ"]),
  ("Defense / Low Vol", ["JNJ", "PG", "KO", "PEP", "MRK", "ABBV", "WMT", "COST", "CL", "UNP", "WM", "RSG", "ADP",
    "MMC", "ICE", "CME", "PAYX", "USMV", "SPLV", "NOBL", "SDY", "HDV", "DGRO", "VIG", "DVY",
    "SCHD", "SPHD", "FVD", "CDC", "LGLV", "XMLV", "XSLV", "LVHD", "SMMV", "EFAV", "ACWV", "JPIN",
    "JPUS", "EEMV", "IDLV", "ONEV", "FDLO", "VFMV", "AQWA", "NULV", "NUMV", "BLES", "ESGU",
    "SUSL", "SUSA", "KRMA", "SNPE", "DSI", "VSGX", "EAGG", "SUSB", "QQQA"]),
  ("Commodities", ["DBC", "PDBC", "GSG", "COMT", "BCI", "FTGC", "DJP", "GCC", "RJI", "USCI", "CPER", "JJC",
    "DBB", "JJCTF", "USO", "BNO", "UNG", "UGA", "DBO", "CORN", "WEAT", "SOYB", "CANE", "NIB",
    "JO", "COW", "TAGS", "PDBA", "RJA", "MOO", "DBA", "VEGI", "WOOD", "CUT", "GUNR", "GNR",
    "PICK", "XME", "REMX", "SLX", "COPX", "LIT", "PPLT", "PALL", "GLTR", "CFD", "COMB"]),
  ("REITs", ["VNQ", "VNQI", "SCHH", "IYR", "XLRE", "RWR", "USRT", "BBRE", "REET", "SRET", "REM", "MORT",
    "KBWY", "NURE", "HOMZ", "REZ", "INDS", "SRVR", "PPTY", "ICF", "FFR", "FREL", "DFAR", "REET",
    "IFGL", "WPS", "HAUZ", "RWO", "DRN", "TRET", "NETL", "CHIR", "GQRE", "SPRE", "ERET", "HIPS",
    "RFI", "APTS", "STOR", "OPEN", "LAND", "EPRT", "IIPR", "SAFE", "CTO", "AKR", "AAT", "JBGS"]),
  ("Global / Thematic", ["VT", "ACWI", "VEU", "VXUS", "VWO", "EEM", "IEMG", "SCHE", "EWJ", "EWZ", "EWY", "EWT",
    "EWA", "EWC", "EWG", "EWU", "EWH", "EWS", "THD", "VNM", "INDA", "MCHI", "FM", "FRDM", "EWW",
    "EWP", "EIS", "TUR", "ECH", "ARGT", "AFK", "GXC", "FXI", "ASHR", "KBA", "CNYA", "FLCH",
    "NORW", "EDEN", "EFNL", "PGAL", "GREK", "EPOL", "ENZL", "EZA", "NGE", "PAK", "QAT", "UAE",
    "KSA", "FLSA", "FLKR", "FLGB", "FLJP", "FLGR", "FLIN", "FLBR", "FLMX", "FLCH", "FLTW",
    "FLAU", "FLCA", "FLHK", "JETS", "UFO", "HERO", "ESPO", "NERD", "BETZ", "AWAY", "GERM",
    "ROBO", "BOTZ", "IRBO", "ARKQ", "AIQ", "ROBT", "DTEC", "SNSR", "SKYY", "WCLD", "CLOU",
    "BUG", "HACK", "CIBR", "IHAK", "PRNT", "MOON", "KOMP", "LOUP", "BUZZ", "CHAT"]),
  ("Bonds / Hedges", ["TLT", "IEF", "SHY", "AGG", "BND", "BNDX", "TIP", "STIP", "VTIP", "SCHP", "LTPZ", "GOVT",
    "VGSH", "VGIT", "VGLT", "SHV", "BIL", "SGOV", "TFLO", "FLOT", "FLRN", "SCHO", "SCHR", "SPTL",
    "SPLB", "SPAB", "IGSB", "IGIB", "LQD", "VCSH", "VCIT", "VCLT", "MUB", "TFI", "CMF", "NYF",
    "HYG", "JNK", "SHYG", "SJNK", "HYLB", "HYDB", "ANGL", "FALN", "BKLN", "SRLN", "EMB", "LEMB",
    "VWOB", "PCY", "EMHY", "IAGG", "BWX", "BNDW", "IGOV", "ISHG", "GVI", "TOTL", "BOND", "FBND",
    "NUBD", "FIXD", "GOVI", "FLCB", "JCPB", "MINT", "NEAR", "GSY", "ICSH", "JPST", "PULS",
    "FTSM", "RAVI", "CARY", "USFR"]),
  ("Crypto", ["IBIT", "FBTC", "BITB", "ARKB", "BTCO", "EZBC", "BRRR", "HODL", "BTCW", "DEFI", "GBTC",
    "ETHE", "ETHA", "FETH", "ETHW", "ETHV", "CETH", "QETH", "EZET", "BITO", "BTF", "XBTF",
    "MAXI", "BITS", "BITQ", "BLOK", "DAPP", "CRPT", "SATO", "DAM", "IBLC"])
]

def CATEGORY_LIST : List String := UNIVERSE.map Prod.fst

/-- TICKER_TO_CATEGORY built as in source lines 141-144: iterate categories in
order, writing ticker -> category.  A later write overwrites an earlier one
(Python dict semantics), which consing captures: lookup finds the latest
binding first. -/
def TICKER_TO_CATEGORY : List (String × String) :=
  UNIVERSE.foldl (fun acc p => p.2.foldl (fun a t => (t, p.1) :: a) acc) []

/-- TICKER_TO_CATEGORY.get(ticker, "Unknown") from source line 185. -/
def catOf (t : String) : String :=
  (TICKER_TO_CATEGORY.lookup t).getD "Unknown"

/-! ## Price table model -/

/-- A date-indexed price table (the pandas DataFrame `prices`): ordered
trading dates, ticker columns in order, and an optional price per (ticker,
row).  none models a NaN or absent price. -/
structure PriceTable where
  dates : List ℕ
  tickers : List String
  price : String → ℕ → Option ℚ

/-! ## Asset ranker (source lines 155-198) -/

/-- One step of pandas Series.pct_change (without forward-filling): the return
is (cur - prev) / prev when both are present, NaN otherwise. -/
def pctGo : Option ℚ → List (Option ℚ) → List (Option ℚ)
  | _, [] => []
  | prev, cur :: rest =>
    (match prev, cur with
     | some a, some b => some ((b - a) / a)
     | _, _ => none) :: pctGo cur rest

/-- pandas pct_change on one column: the first row has no previous value and
is NaN. -/
def pctChange : List (Option ℚ) → List (Option ℚ)
  | [] => []
  | x :: xs => none :: pctGo x xs

/-- Row indices of the trailing window prices_df.iloc[loc - len : loc + 1]. -/
def winIdx (loc len : ℕ) : List ℕ := List.range' (loc - len) (len + 1)

/-- One ticker column of the trailing window. -/
def colSeries (tbl : PriceTable) (t : String) (loc len : ℕ) : List (Option ℚ) :=
  (winIdx loc len).map (tbl.price t)

/-- window.pct_change() for one ticker column. -/
def retCol (tbl : PriceTable) (t : String) (loc len : ℕ) : List (Option ℚ) :=
  pctChange (colSeries tbl t loc len)

/-- Row positions kept by DataFrame.dropna() on the pct_change frame: a row
survives iff every ticker column has a defined return there. -/
def keptIdx (tbl : PriceTable) (loc len : ℕ) : List ℕ :=
  (List.range (len + 1)).filter
    (fun j => tbl.tickers.all (fun t => ((retCol tbl t loc len).getD j none).isSome))

/-- The surviving return values of one column. -/
def keptVals (col : List (Option ℚ)) (rows : List ℕ) : List ℚ :=
  rows.filterMap (fun j => col.getD j none)

/-- pandas Series.mean: NaN on an empty series. -/
def meanQ (xs : List ℚ) : Option ℚ :=
  if xs.length = 0 then none else some (xs.sum / (xs.length : ℚ))

/-- Sample variance with ddof = 1 (the square of pandas Series.std): NaN when
fewer than two observations. -/
def sampleVarQ (xs : List ℚ) : Option ℚ :=
  if xs.length < 2 then none
  else some (((xs.map (fun x => (x - xs.sum / (xs.length : ℚ))^2)).sum) / ((xs.length : ℚ) - 1))

/-- momentum = returns_mom.mean() for one ticker (mean over the rows that
survive dropna on the momentum-window return frame). -/
def momentumOf (tbl : PriceTable) (loc : ℕ) (t : String) : Option ℚ :=
  meanQ (keptVals (retCol tbl t loc LOOKBACK_MOM) (keptIdx tbl loc LOOKBACK_MOM))

/-- The square of volatility = returns_vol.std() for one ticker.  The source
compares volatility with zero and divides by it; both are phrased below
through this variance and Real.sqrt. -/
def varianceOf (tbl : PriceTable) (loc : ℕ) (t : String) : Option ℚ :=
  sampleVarQ (keptVals (retCol tbl t loc LOOKBACK_VOL) (keptIdx tbl loc LOOKBACK_VOL))

/-- The raw score momentum / volatility of source line 174, as a real:
volatility is the square root of the sample variance. -/
noncomputable def scoreR (mv : ℚ × ℚ) : ℝ :=
  (mv.1 : ℝ) / Real.sqrt (mv.2 : ℝ)

/-- Tickers surviving the validity filter of lines 173-174 (volatility
strictly positive, both statistics defined: dropna on the score series),
with their (momentum, variance) pairs, in column order. -/
def eligibleList (tbl : PriceTable) (loc : ℕ) : List (String × ℚ × ℚ) :=
  tbl.tickers.filterMap (fun t =>
    match momentumOf tbl loc t, varianceOf tbl loc t with
    | some m, some v => if 0 < v then some (t, m, v) else none
    | _, _ => none)

/-- Decides scoreR a >= scoreR b over the rationals (valid when both
variances are positive): compare signs of the momenta, then cross-multiplied
squares.  This is the comparison sort_values performs on the real scores. -/
def scoreGeB (a b : ℚ × ℚ) : Bool :=
  (decide (0 ≤ a.1) && decide (b.1 ≤ 0)) ||
  (decide (0 ≤ a.1) && decide (0 ≤ b.1) && decide (b.1^2 * a.2 ≤ a.1^2 * b.2)) ||
  (decide (a.1 ≤ 0) && decide (b.1 ≤ 0) && decide (a.1^2 * b.2 ≤ b.1^2 * a.2))

/-- Stable insertion into a descending-by-score list. -/
def insertDesc (x : String × ℚ × ℚ) : List (String × ℚ × ℚ) → List (String × ℚ × ℚ)
  | [] => [x]
  | y :: ys => if scoreGeB y.2 x.2 then y :: insertDesc x ys else x :: y :: ys

/-- sort_values(ascending=False) on the score series: a deterministic stable
sort, descending by score. -/
def sortDesc : List (String × ℚ × ℚ) → List (String × ℚ × ℚ)
  | [] => []
  | x :: xs => insertDesc x (sortDesc xs)

/-- Pointwise update of the category_weight dict. -/
def updFn (f : String → ℚ) (c : String) (x : ℚ) : String → ℚ :=
  fun d => if d = c then x else f d

/-- The greedy selection loop of source lines 179-191: walk the
score-descending candidates; stop at TOP_N selections; skip Unknown
categories; skip a candidate whose category slot count would exceed
MAX_SECTOR_WEIGHT; otherwise select it and charge 1/TOP_N to its category.
The accumulator is kept reversed and restored on exit, preserving selection
order. -/
def selGo : List (String × ℚ × ℚ) → List (String × ℚ × ℚ) → (String → ℚ) → List (String × ℚ × ℚ)
  | [], acc, _ => acc.reverse
  | c :: rest, acc, cw =>
    if TOP_N ≤ acc.length then acc.reverse
    else
      if catOf c.1 = "Unknown" then selGo rest acc cw
      else if MAX_SECTOR_WEIGHT < cw (catOf c.1) + 1 / (TOP_N : ℚ) then selGo rest acc cw
      else selGo rest (c :: acc) (updFn cw (catOf c.1) (cw (catOf c.1) + 1 / (TOP_N : ℚ)))

/-- rank_assets after the index lookup: history guard (line 161), window
statistics, validity filter, descending sort, positive-score filter and
greedy capped selection.  Returns the selected tickers with their
(momentum, variance) pairs, in selection order. -/
def rank_sel (loc : ℕ) (tbl : PriceTable) : List (String × ℚ × ℚ) :=
  if loc < LOOKBACK_MOM then []
  else
    selGo ((sortDesc (eligibleList tbl loc)).filter (fun c => decide (0 < c.2.1))) []
      (fun _ => 0)

/-- prices_df.index.get_loc(date) (source line 160): position of the exact
date in the index; a missing date raises KeyError, modelled as none. -/
def get_loc (tbl : PriceTable) (date : ℕ) : Option ℕ :=
  tbl.dates.findIdx? (fun d => d = date)

/-- Final weights of source lines 196-198: each selected score divided by the
sum of the selected scores. -/
noncomputable def weightsOf (sel : List (String × ℚ × ℚ)) : List (String × ℝ) :=
  sel.map (fun c => (c.1, scoreR c.2 / (sel.map (fun d => scoreR d.2)).sum))

/-- rank_assets(date, prices_df): none models the KeyError raised by get_loc
when the date is not in the index; otherwise the capped selection with its
normalized weights (an empty dict when nothing is selected). -/
noncomputable def rank_assets (date : ℕ) (tbl : PriceTable) : Option (List (String × ℝ)) :=
  (get_loc tbl date).map (fun loc => weightsOf (rank_sel loc tbl))

/-! ## Backtest engine (source lines 207-278) -/

/-- A held position: holdings[ticker] = dict with qty and entry_price. -/
structure Position where
  qty : ℤ
  entry_price : ℚ
deriving DecidableEq

/-- The engine state: cash, the holdings dict in insertion order, the
portfolio value series, its dates, and the commission accumulator. -/
structure EngineState where
  cash : ℚ
  holdings : List (String × Position)
  portfolio_value : List ℚ
  dates_track : List ℕ
  total_commissions : ℚ
deriving DecidableEq

/-- rebalance_dates = prices.index[prices.index.dayofweek == 4]. -/
def rebalance_dates (tbl : PriceTable) : List ℕ :=
  tbl.dates.filter (fun d => d % 7 = REBALANCE_WEEKDAY)

/-- Net proceeds of liquidating one position at the current price:
sell_value - calc_commission(sell_value). -/
def netProceeds (cp : String → Option ℚ) (h : String × Position) : ℚ :=
  (h.2.qty : ℚ) * ((cp h.1).getD 0) - calc_commission ((h.2.qty : ℚ) * ((cp h.1).getD 0))

/-- Commission charged on liquidating one position. -/
def commOf (cp : String → Option ℚ) (h : String × Position) : ℚ :=
  calc_commission ((h.2.qty : ℚ) * ((cp h.1).getD 0))

/-- The positions collected in stopped_out (source lines 219-237): held, with
a defined current price, and return since entry at or below the stop-loss
threshold.  (The isinstance dict guard of line 225 always succeeds: every
stored value is the dict written on line 269.) -/
def slTriggered (cp : String → Option ℚ) (hs : List (String × Position)) :
    List (String × Position) :=
  hs.filter (fun h =>
    match cp h.1 with
    | none => false
    | some p => decide ((p - h.2.entry_price) / h.2.entry_price ≤ STOP_LOSS_PCT))

/-- The stop-loss pass (source lines 218-240): credit net proceeds and charge
commission for every triggered position, then delete them from holdings. -/
def stopLossPass (cp : String → Option ℚ) (s : EngineState) : EngineState :=
  { s with
    cash := s.cash + ((slTriggered cp s.holdings).map (netProceeds cp)).sum
    total_commissions :=
      s.total_commissions + ((slTriggered cp s.holdings).map (commOf cp)).sum
    holdings := s.holdings.filter
      (fun h => !((slTriggered cp s.holdings).any (fun g => g.1 == h.1))) }

/-- Sell values of the clearing sale of source lines 248-253: one entry per
held position with a defined current price (an undefined price is skipped:
no sale, no proceeds). -/
def sellValues (cp : String → Option ℚ) (hs : List (String × Position)) : List ℚ :=
  hs.filterMap (fun h => (cp h.1).map (fun p => (h.2.qty : ℚ) * p))

/-- One step of the buy loop (source lines 258-269): skip an undefined price;
qty = int(alloc // price) with alloc = total_equity * weight; buy only when
qty > 0, debiting cost plus commission and recording the new position.  The
accumulator is (cash, total_commissions, new holdings); total_equity is a
fixed parameter, as in the source. -/
noncomputable def buyStep (e : ℚ) (cp : String → Option ℚ)
    (acc : ℚ × ℚ × List (String × Position)) (x : String × ℝ) :
    ℚ × ℚ × List (String × Position) :=
  match cp x.1 with
  | none => acc
  | some p =>
    let qty : ℤ := ⌊(e : ℝ) * x.2 / (p : ℝ)⌋
    if 0 < qty then
      ((acc.1 - ((qty : ℚ) * p + calc_commission ((qty : ℚ) * p))),
        acc.2.1 + calc_commission ((qty : ℚ) * p),
        acc.2.2 ++ [(x.1, ⟨qty, p⟩)])
    else acc

/-- The rebalance pass (source lines 243-269): on a rebalance date, rank; on
a non-empty allocation, liquidate every priced position (undefined prices are
skipped), clear holdings entirely, then run the buy loop on the cleared cash.
On an empty allocation (or a non-rebalance date) the state is untouched. -/
noncomputable def rebalancePass (tbl : PriceTable) (date : ℕ)
    (cp : String → Option ℚ) (s : EngineState) : EngineState :=
  if date ∈ rebalance_dates tbl then
    let tw := (rank_assets date tbl).getD []
    if tw = [] then s
    else
      let cash1 := s.cash + ((sellValues cp s.holdings).map
        (fun sv => sv - calc_commission sv)).sum
      let comms1 := s.total_commissions + ((sellValues cp s.holdings).map
        calc_commission).sum
      let r := tw.foldl (buyStep cash1 cp) (cash1, comms1, [])
      { s with cash := r.1, total_commissions := r.2.1, holdings := r.2.2 }
  else s

/-- The valuation pass (source lines 271-278): portfolio value = cash plus
quantity times price over the positions with a defined current price, appended
to the series together with the date. -/
def valuationPass (date : ℕ) (cp : String → Option ℚ) (s : EngineState) : EngineState :=
  { s with
    portfolio_value := s.portfolio_value ++ [s.cash + (sellValues cp s.holdings).sum]
    dates_track := s.dates_track ++ [date] }

/-- One iteration of the backtest loop for row i: current_prices =
prices.loc[date] resolves to row i because the engine draws date from
position i of the index (dates are strictly increasing, so the label lookup
is the positional one). -/
noncomputable def engineStep (tbl : PriceTable) (s : EngineState) (i : ℕ) : EngineState :=
  valuationPass (tbl.dates.getD i 0) (fun t => tbl.price t i)
    (rebalancePass tbl (tbl.dates.getD i 0) (fun t => tbl.price t i)
      (stopLossPass (fun t => tbl.price t i) s))

/-- The initial state of source lines 207-211: full cash, no holdings, and the
series seeded with (index[LOOKBACK_MOM], INITIAL_CAPITAL). -/
def initState (tbl : PriceTable) : EngineState :=
  { cash := INITIAL_CAPITAL
    holdings := []
    portfolio_value := [INITIAL_CAPITAL]
    dates_track := [tbl.dates.getD LOOKBACK_MOM 0]
    total_commissions := 0 }

/-- The backtest after the first k iterations of the loop over
prices.index[LOOKBACK_MOM:]. -/
noncomputable def backtestUpTo (tbl : PriceTable) (k : ℕ) : EngineState :=
  (List.range' LOOKBACK_MOM k).foldl (engineStep tbl) (initState tbl)

/-- The full backtest (source lines 215-278). -/
noncomputable def backtest (tbl : PriceTable) : EngineState :=
  backtestUpTo tbl (tbl.dates.length - LOOKBACK_MOM)

/-! ## Concrete scenario tables used by witnesses and counterexamples -/

/-- 92 trading days numbered 4..95 (day 95 is a Friday, day 94 is not); a
single ticker TSLA priced 100 until row 89 and 200 from row 90 on. -/
def tblJump : PriceTable :=
  { dates := (List.range 92).map (· + 4)
    tickers := ["TSLA"]
    price := fun t i =>
      if t = "TSLA" ∧ i < 92 then (if i < 90 then some 100 else some 200) else none }

/-- 91 trading days numbered 0..90 (day 90 is not a Friday), no tickers. -/
def tblSeed : PriceTable :=
  { dates := List.range 91
    tickers := []
    price := fun _ _ => none }

/-- 97 trading days: 4..95 then 98..102 (Fridays at rows 91 and 96 only among
the simulated rows).  TSLA rises 100 -> 300 at row 64 and has no price on row
96; JNJ is flat at 100 until row 91 and 200 from row 92 on. -/
def tblStrand : PriceTable :=
  { dates := (List.range 92).map (· + 4) ++ [98, 99, 100, 101, 102]
    tickers := ["TSLA", "JNJ"]
    price := fun t i =>
      if t = "TSLA" then (if i < 64 then some 100 else if i < 96 then some 300 else none)
      else if t = "JNJ" then (if i < 92 then some 100 else if i < 97 then some 200 else none)
      else none }

/-- Like tblJump but TSLA has a missing price on row 70 (inside both the
momentum and the volatility window of row 91) and jumps to 300. -/
def tblGap : PriceTable :=
  { dates := (List.range 92).map (· + 4)
    tickers := ["TSLA"]
    price := fun t i =>
      if t = "TSLA" ∧ i < 92 ∧ i ≠ 70 then (if i < 90 then some 100 else some 300) else none }

/-- A short table (10 rows): every date has fewer than LOOKBACK_MOM prior
rows. -/
def tblTiny : PriceTable :=
  { dates := List.range 10
    tickers := []
    price := fun _ _ => none }

/-- A small engine state holding ten TSLA shares bought at 100. -/
def stateSL : EngineState :=
  { cash := 0
    holdings := [("TSLA", ⟨10, 100⟩)]
    portfolio_value := [0]
    dates_track := [0]
    total_commissions := 0 }

/-! ## Commission lemmas -/

theorem calc_commission_nonneg (v : ℚ) : 0 ≤ calc_commission v := by
  have h1 : (0:ℚ) ≤ |v| * MAX_COMMISSION_PCT := by
    have := abs_nonneg v
    unfold MAX_COMMISSION_PCT
    nlinarith
  have h2 : (0:ℚ) ≤ max (|v| * COMMISSION_RATE) MIN_COMMISSION :=
    le_max_of_le_right (by norm_num [MIN_COMMISSION])
  exact le_min h2 h1

theorem calc_commission_le_cap (v : ℚ) : calc_commission v ≤ |v| * MAX_COMMISSION_PCT :=
  min_le_right _ _

/-! ## Ranker membership lemmas -/

theorem mem_eligibleList {tbl : PriceTable} {loc : ℕ} {x : String × ℚ × ℚ}
    (hx : x ∈ eligibleList tbl loc) :
    x.1 ∈ tbl.tickers ∧ momentumOf tbl loc x.1 = some x.2.1 ∧
      varianceOf tbl loc x.1 = some x.2.2 ∧ 0 < x.2.2 := by
  unfold eligibleList at hx
  rcases List.mem_filterMap.mp hx with ⟨t, ht, hf⟩
  cases hm : momentumOf tbl loc t with
  | none => rw [hm] at hf; simp at hf
  | some m =>
    cases hv : varianceOf tbl loc t with
    | none => rw [hm, hv] at hf; simp at hf
    | some v =>
      rw [hm, hv] at hf
      have hf2 : (if 0 < v then some (t, m, v) else none) = some x := hf
      by_cases hp : 0 < v
      · rw [if_pos hp] at hf2
        injection hf2 with h
        subst h
        exact ⟨ht, hm, hv, hp⟩
      · rw [if_neg hp] at hf2
        simp at hf2

theorem mem_insertDesc {x y : String × ℚ × ℚ} {l : List (String × ℚ × ℚ)} :
    y ∈ insertDesc x l ↔ y = x ∨ y ∈ l := by
  induction l with
  | nil => simp [insertDesc]
  | cons z zs ih =>
    unfold insertDesc
    by_cases h : scoreGeB z.2 x.2
    · rw [if_pos h]
      simp only [List.mem_cons, ih]
      tauto
    · rw [if_neg h]
      simp only [List.mem_cons]

theorem mem_sortDesc {x : String × ℚ × ℚ} {l : List (String × ℚ × ℚ)} :
    x ∈ sortDesc l ↔ x ∈ l := by
  induction l with
  | nil => simp [sortDesc]
  | cons z zs ih =>
    unfold sortDesc
    rw [mem_insertDesc]
    simp [ih]

/-! ## Selection loop invariants -/

theorem selGo_sub (l : List (String × ℚ × ℚ)) :
    ∀ (acc : List (String × ℚ × ℚ)) (cw : String → ℚ),
      ∀ x ∈ selGo l acc cw, x ∈ l ∨ x ∈ acc := by
  induction l with
  | nil =>
    intro acc cw x hx
    right
    rw [selGo] at hx
    exact List.mem_reverse.mp hx
  | cons c rest ih =>
    intro acc cw x hx
    rw [selGo] at hx
    by_cases hlen : TOP_N ≤ acc.length
    · rw [if_pos hlen] at hx
      exact Or.inr (List.mem_reverse.mp hx)
    · rw [if_neg hlen] at hx
      by_cases hu : catOf c.1 = "Unknown"
      · rw [if_pos hu] at hx
        rcases ih acc cw x hx with h | h
        · exact Or.inl (List.mem_cons_of_mem _ h)
        · exact Or.inr h
      · rw [if_neg hu] at hx
        by_cases hcap : MAX_SECTOR_WEIGHT < cw (catOf c.1) + 1 / (TOP_N : ℚ)
        · rw [if_pos hcap] at hx
          rcases ih acc cw x hx with h | h
          · exact Or.inl (List.mem_cons_of_mem _ h)
          · exact Or.inr h
        · rw [if_neg hcap] at hx
          rcases ih _ _ x hx with h | h
          · exact Or.inl (List.mem_cons_of_mem _ h)
          · rcases List.mem_cons.mp h with h | h
            · exact Or.inl (h ▸ List.mem_cons_self _ _)
            · exact Or.inr h

theorem selGo_length (l : List (String × ℚ × ℚ)) :
    ∀ (acc : List (String × ℚ × ℚ)) (cw : String → ℚ),
      acc.length ≤ TOP_N → (selGo l acc cw).length ≤ TOP_N := by
  induction l with
  | nil =>
    intro acc cw h
    rw [selGo]
    simpa using h
  | cons c rest ih =>
    intro acc cw h
    rw [selGo]
    by_cases hlen : TOP_N ≤ acc.length
    · rw [if_pos hlen]
      simpa using h
    · rw [if_neg hlen]
      by_cases hu : catOf c.1 = "Unknown"
      · rw [if_pos hu]
        exact ih acc cw h
      · rw [if_neg hu]
        by_cases hcap : MAX_SECTOR_WEIGHT < cw (catOf c.1) + 1 / (TOP_N : ℚ)
        · rw [if_pos hcap]
          exact ih acc cw h
        · rw [if_neg hcap]
          exact ih _ _ (by simpa using Nat.lt_of_not_le hlen)

/-- Number of selected entries whose ticker belongs to category c. -/
def countCat (c : String) (sel : List (String × ℚ × ℚ)) : ℕ :=
  sel.countP (fun x => catOf x.1 == c)

theorem selGo_cap (l : List (String × ℚ × ℚ)) :
    ∀ (acc : List (String × ℚ × ℚ)) (cw : String → ℚ),
      (∀ c, cw c = (countCat c acc : ℚ) / (TOP_N : ℚ)) →
      (∀ c, cw c ≤ MAX_SECTOR_WEIGHT) →
      ∀ c, (countCat c (selGo l acc cw) : ℚ) / (TOP_N : ℚ) ≤ MAX_SECTOR_WEIGHT := by
  induction l with
  | nil =>
    intro acc cw h1 h2 c
    rw [selGo]
    unfold countCat
    rw [List.countP_reverse]
    have h1c := h1 c
    unfold countCat at h1c
    rw [← h1c]
    exact h2 c
  | cons x rest ih =>
    intro acc cw h1 h2 c
    rw [selGo]
    by_cases hlen : TOP_N ≤ acc.length
    · rw [if_pos hlen]
      unfold countCat
      rw [List.countP_reverse]
      have h1c := h1 c
      unfold countCat at h1c
      rw [← h1c]
      exact h2 c
    · rw [if_neg hlen]
      by_cases hu : catOf x.1 = "Unknown"
      · rw [if_pos hu]
        exact ih acc cw h1 h2 c
      · rw [if_neg hu]
        by_cases hcap : MAX_SECTOR_WEIGHT < cw (catOf x.1) + 1 / (TOP_N : ℚ)
        · rw [if_pos hcap]
          exact ih acc cw h1 h2 c
        · rw [if_neg hcap]
          apply ih
          · intro d
            unfold updFn
            by_cases hd : d = catOf x.1
            · subst hd
              rw [if_pos rfl]
              unfold countCat
              rw [List.countP_cons]
              have hx : (catOf x.1 == catOf x.1) = true := beq_iff_eq.mpr rfl
              rw [hx]
              have h1c := h1 (catOf x.1)
              unfold countCat at h1c
              rw [h1c]
              have hn : (0:ℚ) < (TOP_N : ℚ) := by norm_num [TOP_N]
              field_simp
            · rw [if_neg hd]
              rw [h1 d]
              unfold countCat
              rw [List.countP_cons]
              have hx : (catOf x.1 == d) = false := by
                simp only [beq_eq_false_iff_ne, ne_eq]
                exact fun h => hd h.symm
              rw [hx]
              simp
          · intro d
            unfold updFn
            by_cases hd : d = catOf x.1
            · rw [if_pos hd]
              exact not_lt.mp hcap
            · rw [if_neg hd]
              exact h2 d

/-! ## Properties of the selection returned by the ranker -/

theorem rank_sel_mem {loc : ℕ} {tbl : PriceTable} {x : String × ℚ × ℚ}
    (hx : x ∈ rank_sel loc tbl) :
    x.1 ∈ tbl.tickers ∧ momentumOf tbl loc x.1 = some x.2.1 ∧
      varianceOf tbl loc x.1 = some x.2.2 ∧ 0 < x.2.2 ∧ 0 < x.2.1 := by
  unfold rank_sel at hx
  by_cases hloc : loc < LOOKBACK_MOM
  · rw [if_pos hloc] at hx
    simp at hx
  · rw [if_neg hloc] at hx
    rcases selGo_sub _ _ _ x hx with h | h
    · rcases List.mem_filter.mp h with ⟨hsort, hpos⟩
      have helig := mem_eligibleList (mem_sortDesc.mp hsort)
      have hm : 0 < x.2.1 := of_decide_eq_true hpos
      exact ⟨helig.1, helig.2.1, helig.2.2.1, helig.2.2.2, hm⟩
    · simp at h

theorem rank_sel_length (loc : ℕ) (tbl : PriceTable) :
    (rank_sel loc tbl).length ≤ TOP_N := by
  unfold rank_sel
  by_cases hloc : loc < LOOKBACK_MOM
  · rw [if_pos hloc]
    norm_num [TOP_N]
  · rw [if_neg hloc]
    exact selGo_length _ _ _ (by norm_num [TOP_N])

theorem rank_sel_cap (loc : ℕ) (tbl : PriceTable) (c : String) :
    (countCat c (rank_sel loc tbl) : ℚ) / (TOP_N : ℚ) ≤ MAX_SECTOR_WEIGHT := by
  unfold rank_sel
  by_cases hloc : loc < LOOKBACK_MOM
  · rw [if_pos hloc]
    norm_num [countCat, MAX_SECTOR_WEIGHT]
  · rw [if_neg hloc]
    apply selGo_cap
    · intro d
      simp [countCat]
    · intro d
      norm_num [MAX_SECTOR_WEIGHT]

theorem scoreR_pos {mv : ℚ × ℚ} (hm : 0 < mv.1) (hv : 0 < mv.2) : 0 < scoreR mv := by
  unfold scoreR
  apply div_pos
  · exact_mod_cast hm
  · exact Real.sqrt_pos.mpr (by exact_mod_cast hv)

theorem scoreR_ne_zero {mv : ℚ × ℚ} (hm : mv.1 ≠ 0) (hv : 0 < mv.2) : scoreR mv ≠ 0 := by
  unfold scoreR
  apply div_ne_zero
  · exact_mod_cast hm
  · exact ne_of_gt (Real.sqrt_pos.mpr (by exact_mod_cast hv))

theorem sum_map_div {α : Type} (l : List α) (f : α → ℝ) (T : ℝ) :
    (l.map (fun x => f x / T)).sum = (l.map f).sum / T := by
  induction l with
  | nil => simp
  | cons a as ih => simp [add_div, ih]

/-- The weights sum to one whenever the selection is non-empty and every
selected score is positive. -/
theorem weightsOf_sum {sel : List (String × ℚ × ℚ)} (hne : sel ≠ [])
    (hpos : ∀ x ∈ sel, 0 < scoreR x.2) :
    ((weightsOf sel).map Prod.snd).sum = 1 := by
  unfold weightsOf
  rw [List.map_map]
  show (sel.map (fun c : String × ℚ × ℚ =>
    scoreR c.2 / (sel.map (fun d => scoreR d.2)).sum)).sum = 1
  rw [sum_map_div]
  apply div_self
  apply ne_of_gt
  apply List.sum_pos
  · intro y hy
    rcases List.mem_map.mp hy with ⟨x, hxm, rfl⟩
    exact hpos x hxm
  · simpa using hne

/-- A single selected ticker always gets weight one. -/
theorem weightsOf_singleton {t : String} {mv : ℚ × ℚ} (hm : mv.1 ≠ 0) (hv : 0 < mv.2) :
    weightsOf [(t, mv)] = [(t, 1)] := by
  unfold weightsOf
  simp only [List.map_cons, List.map_nil, List.sum_cons, List.sum_nil, add_zero]
  rw [div_self (scoreR_ne_zero hm hv)]

theorem weightsOf_fst (sel : List (String × ℚ × ℚ)) :
    (weightsOf sel).map Prod.fst = sel.map Prod.fst := by
  unfold weightsOf
  rw [List.map_map]
  rfl

/-- Every weight produced by rank_assets is nonnegative and their sum is at
most one, for any date and table. -/
theorem rank_weights_bounds (date : ℕ) (tbl : PriceTable) :
    (∀ x ∈ (rank_assets date tbl).getD [], (0:ℝ) ≤ x.2) ∧
      ((((rank_assets date tbl).getD []).map Prod.snd).sum ≤ 1) := by
  cases hg : get_loc tbl date with
  | none => simp [rank_assets, hg]
  | some loc =>
    rw [show (rank_assets date tbl).getD [] = weightsOf (rank_sel loc tbl) by
      simp [rank_assets, hg]]
    by_cases hsel : rank_sel loc tbl = []
    · rw [hsel]
      unfold weightsOf
      simp
    · have hpos : ∀ x ∈ rank_sel loc tbl, 0 < scoreR x.2 := by
        intro x hx
        have h := rank_sel_mem hx
        exact scoreR_pos h.2.2.2.2 h.2.2.2.1
      constructor
      · intro x hx
        unfold weightsOf at hx
        rcases List.mem_map.mp hx with ⟨y, hym, rfl⟩
        have hT : 0 < ((rank_sel loc tbl).map (fun d => scoreR d.2)).sum := by
          apply List.sum_pos
          · intro z hz
            rcases List.mem_map.mp hz with ⟨w, hwm, rfl⟩
            exact hpos w hwm
          · simpa using hsel
        exact le_of_lt (div_pos (hpos y hym) hT)
      · rw [weightsOf_sum hsel hpos]

/-! ## get_loc lemmas -/

theorem get_loc_eq_none {tbl : PriceTable} {d : ℕ} (h : d ∉ tbl.dates) :
    get_loc tbl d = none := by
  unfold get_loc
  rw [List.findIdx?_eq_none_iff]
  intro x hx
  simp only [decide_eq_false_iff_not]
  intro hxd
  exact h (hxd ▸ hx)

theorem findIdx_mem_isSome {d : ℕ} : ∀ {l : List ℕ}, d ∈ l →
    ∃ j, List.findIdx? (fun x => x = d) l = some j := by
  intro l
  induction l with
  | nil => intro h; simp at h
  | cons a as ih =>
    intro h
    rw [List.findIdx?_cons]
    by_cases ha : a = d
    · rw [if_pos (decide_eq_true ha)]
      exact ⟨0, rfl⟩
    · have hmem : d ∈ as := by
        rcases List.mem_cons.mp h with h | h
        · exact absurd h.symm ha
        · exact h
      rw [if_neg (by simpa using ha)]
      rcases ih hmem with ⟨j, hj⟩
      refine ⟨j + 1, ?_⟩
      rw [show (0:ℕ) + 1 = 0 + 1 from rfl, List.findIdx?_succ, hj]
      rfl

theorem get_loc_isSome {tbl : PriceTable} {d : ℕ} (h : d ∈ tbl.dates) :
    ∃ j, get_loc tbl d = some j := findIdx_mem_isSome h

/-! ## Engine pass bookkeeping lemmas -/

theorem stopLossPass_pv (cp : String → Option ℚ) (s : EngineState) :
    (stopLossPass cp s).portfolio_value = s.portfolio_value := rfl

theorem stopLossPass_dates (cp : String → Option ℚ) (s : EngineState) :
    (stopLossPass cp s).dates_track = s.dates_track := rfl

theorem rebalancePass_pv (tbl : PriceTable) (date : ℕ) (cp : String → Option ℚ)
    (s : EngineState) : (rebalancePass tbl date cp s).portfolio_value = s.portfolio_value := by
  unfold rebalancePass
  by_cases h : date ∈ rebalance_dates tbl
  · rw [if_pos h]
    by_cases h2 : (rank_assets date tbl).getD [] = []
    · rw [if_pos h2]
    · rw [if_neg h2]
  · rw [if_neg h]

theorem rebalancePass_dates (tbl : PriceTable) (date : ℕ) (cp : String → Option ℚ)
    (s : EngineState) : (rebalancePass tbl date cp s).dates_track = s.dates_track := by
  unfold rebalancePass
  by_cases h : date ∈ rebalance_dates tbl
  · rw [if_pos h]
    by_cases h2 : (rank_assets date tbl).getD [] = []
    · rw [if_pos h2]
    · rw [if_neg h2]
  · rw [if_neg h]

theorem engineStep_dates (tbl : PriceTable) (s : EngineState) (i : ℕ) :
    (engineStep tbl s i).dates_track = s.dates_track ++ [tbl.dates.getD i 0] := by
  unfold engineStep valuationPass
  rw [rebalancePass_dates, stopLossPass_dates]

theorem engineStep_pv (tbl : PriceTable) (s : EngineState) (i : ℕ) :
    ∃ v, (engineStep tbl s i).portfolio_value = s.portfolio_value ++ [v] := by
  unfold engineStep valuationPass
  rw [rebalancePass_pv, stopLossPass_pv]
  exact ⟨_, rfl⟩

theorem backtestUpTo_zero (tbl : PriceTable) : backtestUpTo tbl 0 = initState tbl := rfl

theorem backtestUpTo_succ (tbl : PriceTable) (k : ℕ) :
    backtestUpTo tbl (k + 1) = engineStep tbl (backtestUpTo tbl k) (LOOKBACK_MOM + k) := by
  unfold backtestUpTo
  rw [List.range'_concat, List.foldl_append]
  simp

theorem backtestUpTo_dates (tbl : PriceTable) (k : ℕ) :
    (backtestUpTo tbl k).dates_track =
      tbl.dates.getD LOOKBACK_MOM 0 ::
        (List.range' LOOKBACK_MOM k).map (fun i => tbl.dates.getD i 0) := by
  induction k with
  | zero => rfl
  | succ n ih =>
    rw [backtestUpTo_succ, engineStep_dates, ih, List.range'_concat, List.map_append]
    simp

theorem backtestUpTo_pv_shape (tbl : PriceTable) (k : ℕ) :
    ∃ r : List ℚ, (backtestUpTo tbl k).portfolio_value = INITIAL_CAPITAL :: r ∧
      r.length = k := by
  induction k with
  | zero => exact ⟨[], rfl, rfl⟩
  | succ n ih =>
    rcases ih with ⟨r, hr, hlen⟩
    rcases engineStep_pv tbl (backtestUpTo tbl n) (LOOKBACK_MOM + n) with ⟨v, hv⟩
    refine ⟨r ++ [v], ?_, ?_⟩
    · rw [backtestUpTo_succ, hv, hr]
      rfl
    · simp [hlen]

/-! ## Stop-loss pass lemmas -/

theorem slTriggered_mem {cp : String → Option ℚ} {hs : List (String × Position)}
    {h : String × Position} (hmem : h ∈ slTriggered cp hs) :
    h ∈ hs ∧ ∃ p, cp h.1 = some p ∧
      (p - h.2.entry_price) / h.2.entry_price ≤ STOP_LOSS_PCT := by
  rcases List.mem_filter.mp hmem with ⟨hin, hcond⟩
  refine ⟨hin, ?_⟩
  cases hp : cp h.1 with
  | none => rw [hp] at hcond; simp at hcond
  | some p =>
    rw [hp] at hcond
    exact ⟨p, rfl, of_decide_eq_true hcond⟩

theorem slTriggered_of {cp : String → Option ℚ} {hs : List (String × Position)}
    {t : String} {pos : Position} {p : ℚ} (hmem : (t, pos) ∈ hs) (hp : cp t = some p)
    (hret : (p - pos.entry_price) / pos.entry_price ≤ STOP_LOSS_PCT) :
    (t, pos) ∈ slTriggered cp hs := by
  apply List.mem_filter.mpr
  refine ⟨hmem, ?_⟩
  show (match cp (t, pos).1 with
    | none => false
    | some p => decide ((p - (t, pos).2.entry_price) / (t, pos).2.entry_price ≤ STOP_LOSS_PCT)) = true
  rw [show (t, pos).1 = t from rfl, hp]
  exact decide_eq_true hret

theorem stopLossPass_removes {cp : String → Option ℚ} {s : EngineState}
    {t : String} {pos : Position} (htrig : (t, pos) ∈ slTriggered cp s.holdings) :
    t ∉ (stopLossPass cp s).holdings.map Prod.fst := by
  intro hmem
  rcases List.mem_map.mp hmem with ⟨h, hh, hfst⟩
  rcases List.mem_filter.mp hh with ⟨_, hcond⟩
  have : (slTriggered cp s.holdings).any (fun g => g.1 == h.1) = true := by
    apply List.any_eq_true.mpr
    exact ⟨(t, pos), htrig, by rw [hfst]; exact beq_iff_eq.mpr rfl⟩
  rw [this] at hcond
  simp at hcond

theorem stopLossPass_holdings_sub {cp : String → Option ℚ} {s : EngineState}
    {h : String × Position} (hmem : h ∈ (stopLossPass cp s).holdings) : h ∈ s.holdings :=
  (List.mem_filter.mp hmem).1

theorem sum_map_add {α : Type} (l : List α) (f g : α → ℚ) :
    (l.map (fun x => f x + g x)).sum = (l.map f).sum + (l.map g).sum := by
  induction l with
  | nil => simp
  | cons a as ih => simp [ih]; ring

theorem netProceeds_add_commOf (cp : String → Option ℚ) (h : String × Position) :
    netProceeds cp h + commOf cp h = (h.2.qty : ℚ) * ((cp h.1).getD 0) := by
  unfold netProceeds commOf
  ring

/-! ## Sell-phase and buy-phase lemmas -/

theorem sellValues_mem {cp : String → Option ℚ} {hs : List (String × Position)}
    {sv : ℚ} (hmem : sv ∈ sellValues cp hs) :
    ∃ h ∈ hs, ∃ p, cp h.1 = some p ∧ sv = (h.2.qty : ℚ) * p := by
  rcases List.mem_filterMap.mp hmem with ⟨h, hh, hf⟩
  cases hp : cp h.1 with
  | none => rw [hp] at hf; simp at hf
  | some p =>
    rw [hp] at hf
    simp only [Option.map_some'] at hf
    injection hf with hv
    exact ⟨h, hh, p, hp, hv.symm⟩

/-- An unpriced holding contributes nothing to the clearing sale: the sell
values are unchanged when the unpriced positions are dropped beforehand. -/
theorem sellValues_unpriced (cp : String → Option ℚ) (hs : List (String × Position)) :
    sellValues cp hs = sellValues cp (hs.filter (fun h => (cp h.1).isSome)) := by
  induction hs with
  | nil => rfl
  | cons h rest ih =>
    unfold sellValues at ih ⊢
    cases hp : cp h.1 with
    | none =>
      simp only [List.filterMap_cons, List.filter_cons, hp, Option.map_none',
        Option.isSome_none, Bool.false_eq_true, if_false]
      exact ih
    | some p =>
      simp only [List.filterMap_cons, List.filter_cons, hp, Option.map_some',
        Option.isSome_some, if_true]
      rw [ih]

theorem buyFold_holdings (e : ℚ) (cp : String → Option ℚ) (tw : List (String × ℝ)) :
    ∀ acc : ℚ × ℚ × List (String × Position),
      ∀ u ∈ (tw.foldl (buyStep e cp) acc).2.2,
        u ∈ acc.2.2 ∨ ((cp u.1).isSome ∧ 0 < u.2.qty ∧ u.1 ∈ tw.map Prod.fst) := by
  induction tw with
  | nil => intro acc u hu; exact Or.inl hu
  | cons x xs ih =>
    intro acc u hu
    rw [List.foldl_cons] at hu
    rcases ih (buyStep e cp acc x) u hu with h | h
    · unfold buyStep at h
      cases hp : cp x.1 with
      | none =>
        rw [hp] at h
        exact Or.inl h
      | some p =>
        rw [hp] at h
        dsimp only at h
        by_cases hq : 0 < (⌊(e : ℝ) * x.2 / (p : ℝ)⌋ : ℤ)
        · rw [if_pos hq] at h
          dsimp only at h
          rcases List.mem_append.mp h with h | h
          · exact Or.inl h
          · rcases List.mem_singleton.mp h with rfl
            exact Or.inr ⟨by rw [hp]; rfl, hq, by simp⟩
        · rw [if_neg hq] at h
          exact Or.inl h
    · exact Or.inr ⟨h.1, h.2.1, List.mem_cons_of_mem _ h.2.2⟩

theorem buyFold_comms_mono (e : ℚ) (cp : String → Option ℚ) (tw : List (String × ℝ)) :
    ∀ acc : ℚ × ℚ × List (String × Position),
      acc.2.1 ≤ (tw.foldl (buyStep e cp) acc).2.1 := by
  induction tw with
  | nil => intro acc; exact le_refl _
  | cons x xs ih =>
    intro acc
    rw [List.foldl_cons]
    refine le_trans ?_ (ih (buyStep e cp acc x))
    unfold buyStep
    cases hp : cp x.1 with
    | none => exact le_refl _
    | some p =>
      dsimp only
      by_cases hq : 0 < (⌊(e : ℝ) * x.2 / (p : ℝ)⌋ : ℤ)
      · rw [if_pos hq]
        have := calc_commission_nonneg (((⌊(e : ℝ) * x.2 / (p : ℝ)⌋ : ℤ) : ℚ) * p)
        dsimp only
        linarith
      · rw [if_neg hq]

/-- One buy never decreases cash plus accumulated commission by more than
max(equity, 0) times the candidate weight: the cost of the purchase is at most
equity times weight (whole shares are floored), and the commission moves from
one accumulator to the other. -/
theorem buyStep_bound (e : ℚ) (cp : String → Option ℚ)
    (acc : ℚ × ℚ × List (String × Position))
    (x : String × ℝ) (hcp : ∀ p, cp x.1 = some p → 0 < p) (hx : (0:ℝ) ≤ x.2) :
    (acc.1 : ℝ) + (acc.2.1 : ℝ) - (max (e : ℝ) 0) * x.2 ≤
      ((buyStep e cp acc x).1 : ℝ) + ((buyStep e cp acc x).2.1 : ℝ) := by
  have hM : (0:ℝ) ≤ max (e : ℝ) 0 := le_max_right _ _
  have hMx : (0:ℝ) ≤ max (e : ℝ) 0 * x.2 := mul_nonneg hM hx
  unfold buyStep
  cases hp : cp x.1 with
  | none => linarith
  | some p =>
    dsimp only
    by_cases hq : 0 < (⌊(e : ℝ) * x.2 / (p : ℝ)⌋ : ℤ)
    · rw [if_pos hq]
      dsimp only
      have hp0 : (0:ℝ) < (p : ℝ) := by exact_mod_cast hcp p hp
      have hfl : ((⌊(e : ℝ) * x.2 / (p : ℝ)⌋ : ℤ) : ℝ) ≤ (e : ℝ) * x.2 / (p : ℝ) :=
        Int.floor_le _
      have hqp : ((⌊(e : ℝ) * x.2 / (p : ℝ)⌋ : ℤ) : ℝ) * (p : ℝ) ≤ (e : ℝ) * x.2 :=
        (le_div_iff₀ hp0).mp hfl
      have hex : (e : ℝ) * x.2 ≤ max (e : ℝ) 0 * x.2 :=
        mul_le_mul_of_nonneg_right (le_max_left _ _) hx
      push_cast
      linarith
    · rw [if_neg hq]
      linarith

/-- Iterating the buy loop: cash plus commission drops by at most
max(equity, 0) times the total weight. -/
theorem buyFold_cash (e : ℚ) (cp : String → Option ℚ) (tw : List (String × ℝ))
    (hcp : ∀ x ∈ tw, ∀ p, cp x.1 = some p → 0 < p) :
    ∀ acc : ℚ × ℚ × List (String × Position), (∀ x ∈ tw, (0:ℝ) ≤ x.2) →
      (acc.1 : ℝ) + (acc.2.1 : ℝ) - (max (e : ℝ) 0) * ((tw.map Prod.snd).sum) ≤
        ((tw.foldl (buyStep e cp) acc).1 : ℝ) + ((tw.foldl (buyStep e cp) acc).2.1 : ℝ) := by
  induction tw with
  | nil =>
    intro acc _
    simp
  | cons x xs ih =>
    intro acc hw
    rw [List.foldl_cons]
    have hstep := buyStep_bound e cp acc x (hcp x (List.mem_cons_self _ _))
      (hw x (List.mem_cons_self _ _))
    have htail := ih (fun y hy => hcp y (List.mem_cons_of_mem _ hy)) (buyStep e cp acc x)
      (fun y hy => hw y (List.mem_cons_of_mem _ hy))
    rw [List.map_cons, List.sum_cons, mul_add]
    linarith

theorem rank_assets_tickers_sub {date : ℕ} {tbl : PriceTable} {x : String × ℝ}
    (hx : x ∈ (rank_assets date tbl).getD []) : x.1 ∈ tbl.tickers := by
  cases hg : get_loc tbl date with
  | none => rw [show (rank_assets date tbl).getD [] = [] by simp [rank_assets, hg]] at hx; simp at hx
  | some loc =>
    rw [show (rank_assets date tbl).getD [] = weightsOf (rank_sel loc tbl) by
      simp [rank_assets, hg]] at hx
    unfold weightsOf at hx
    rcases List.mem_map.mp hx with ⟨c, hc, rfl⟩
    exact (rank_sel_mem hc).1

/-! ## Cash invariant: pass-level lemmas -/

theorem stopLossPass_inv (cp : String → Option ℚ) (s : EngineState) (T : List String)
    (hcp : ∀ h ∈ s.holdings, ∀ p, cp h.1 = some p → 0 < p)
    (h1 : 0 ≤ s.total_commissions) (h2 : -s.total_commissions ≤ s.cash)
    (hq : ∀ h ∈ s.holdings, h.1 ∈ T ∧ 0 < h.2.qty) :
    0 ≤ (stopLossPass cp s).total_commissions ∧
      -(stopLossPass cp s).total_commissions ≤ (stopLossPass cp s).cash ∧
      ∀ h ∈ (stopLossPass cp s).holdings, h.1 ∈ T ∧ 0 < h.2.qty := by
  have hsv : ∀ h ∈ slTriggered cp s.holdings,
      0 ≤ (h.2.qty : ℚ) * ((cp h.1).getD 0) := by
    intro h hh
    rcases slTriggered_mem hh with ⟨hin, p, hp, _⟩
    rw [hp]
    have := (hq h hin).2
    have := hcp h hin p hp
    simp only [Option.getD_some]
    positivity
  have hsum : 0 ≤ ((slTriggered cp s.holdings).map
      (fun h => netProceeds cp h + commOf cp h)).sum := by
    apply List.sum_nonneg
    intro y hy
    rcases List.mem_map.mp hy with ⟨h, hh, rfl⟩
    rw [netProceeds_add_commOf]
    exact hsv h hh
  rw [sum_map_add] at hsum
  have hcomm : 0 ≤ ((slTriggered cp s.holdings).map (commOf cp)).sum := by
    apply List.sum_nonneg
    intro y hy
    rcases List.mem_map.mp hy with ⟨h, _, rfl⟩
    exact calc_commission_nonneg _
  refine ⟨?_, ?_, ?_⟩
  · show 0 ≤ s.total_commissions + ((slTriggered cp s.holdings).map (commOf cp)).sum
    linarith
  · show -(s.total_commissions + ((slTriggered cp s.holdings).map (commOf cp)).sum) ≤
      s.cash + ((slTriggered cp s.holdings).map (netProceeds cp)).sum
    linarith
  · intro h hh
    exact hq h (stopLossPass_holdings_sub hh)

theorem rebalancePass_inv (tbl : PriceTable) (date : ℕ) (cp : String → Option ℚ)
    (s : EngineState)
    (hcpt : ∀ t ∈ tbl.tickers, ∀ p, cp t = some p → 0 < p)
    (h1 : 0 ≤ s.total_commissions) (h2 : -s.total_commissions ≤ s.cash)
    (hq : ∀ h ∈ s.holdings, h.1 ∈ tbl.tickers ∧ 0 < h.2.qty) :
    0 ≤ (rebalancePass tbl date cp s).total_commissions ∧
      -(rebalancePass tbl date cp s).total_commissions ≤ (rebalancePass tbl date cp s).cash ∧
      ∀ h ∈ (rebalancePass tbl date cp s).holdings, h.1 ∈ tbl.tickers ∧ 0 < h.2.qty := by
  unfold rebalancePass
  by_cases hd : date ∈ rebalance_dates tbl
  · rw [if_pos hd]
    by_cases htw : (rank_assets date tbl).getD [] = []
    · rw [if_pos htw]
      exact ⟨h1, h2, hq⟩
    · rw [if_neg htw]
      dsimp only
      set cash1 := s.cash + ((sellValues cp s.holdings).map
        (fun sv => sv - calc_commission sv)).sum with hcash1
      set comms1 := s.total_commissions + ((sellValues cp s.holdings).map
        calc_commission).sum with hcomms1
      have hsell0 : ∀ sv ∈ sellValues cp s.holdings, 0 ≤ sv := by
        intro sv hsv
        rcases sellValues_mem hsv with ⟨h, hh, p, hp, rfl⟩
        have := (hq h hh).2
        have := hcpt h.1 (hq h hh).1 p hp
        positivity
      have hsellsum : 0 ≤ (sellValues cp s.holdings).sum := List.sum_nonneg hsell0
      have hsplit : ((sellValues cp s.holdings).map
          (fun sv => sv - calc_commission sv)).sum +
          ((sellValues cp s.holdings).map calc_commission).sum
          = (sellValues cp s.holdings).sum := by
        rw [← sum_map_add]
        simp
      have hcomm1 : 0 ≤ ((sellValues cp s.holdings).map calc_commission).sum := by
        apply List.sum_nonneg
        intro y hy
        rcases List.mem_map.mp hy with ⟨sv, _, rfl⟩
        exact calc_commission_nonneg sv
      have hc1 : 0 ≤ cash1 + comms1 := by
        rw [hcash1, hcomms1]
        have : s.cash + ((sellValues cp s.holdings).map
            (fun sv => sv - calc_commission sv)).sum +
            (s.total_commissions + ((sellValues cp s.holdings).map calc_commission).sum)
            = (s.cash + s.total_commissions) + (sellValues cp s.holdings).sum := by
          rw [← hsplit]
          ring
        rw [this]
        linarith
      have hcm1 : 0 ≤ comms1 := by
        rw [hcomms1]
        linarith
      -- the buy fold
      set tw := (rank_assets date tbl).getD [] with htwdef
      have hwb := rank_weights_bounds date tbl
      have hcpw : ∀ x ∈ tw, ∀ p, cp x.1 = some p → 0 < p := by
        intro x hx
        exact hcpt x.1 (rank_assets_tickers_sub hx)
      have hbound := buyFold_cash cash1 cp tw hcpw (cash1, comms1, []) hwb.1
      have hmono := buyFold_comms_mono cash1 cp tw (cash1, comms1, [])
      set F := tw.foldl (buyStep cash1 cp) (cash1, comms1, []) with hFdef
      have hFsum : (0:ℝ) ≤ (F.1 : ℝ) + (F.2.1 : ℝ) := by
        have hsw : ((tw.map Prod.snd).sum) ≤ 1 := hwb.2
        have hsw0 : (0:ℝ) ≤ (tw.map Prod.snd).sum := by
          apply List.sum_nonneg
          intro y hy
          rcases List.mem_map.mp hy with ⟨x, hx, rfl⟩
          exact hwb.1 x hx
        rcases le_or_lt (cash1 : ℝ) 0 with hc | hc
        · rw [max_eq_right hc] at hbound
          have : (0:ℝ) ≤ (cash1 : ℝ) + (comms1 : ℝ) := by exact_mod_cast hc1
          simp only at hbound
          nlinarith
        · rw [max_eq_left (le_of_lt hc)] at hbound
          have h01 : (0:ℝ) ≤ (cash1 : ℝ) + (comms1 : ℝ) := by exact_mod_cast hc1
          have hcm1R : (0:ℝ) ≤ (comms1 : ℝ) := by exact_mod_cast hcm1
          nlinarith
      refine ⟨?_, ?_, ?_⟩
      · show 0 ≤ F.2.1
        calc (0:ℚ) ≤ comms1 := hcm1
        _ ≤ F.2.1 := hmono
      · show -F.2.1 ≤ F.1
        have : (0:ℚ) ≤ F.1 + F.2.1 := by exact_mod_cast hFsum
        linarith
      · intro h hh
        rcases buyFold_holdings cash1 cp tw (cash1, comms1, []) h hh with hfalse | hgood
        · simp at hfalse
        · refine ⟨?_, hgood.2.1⟩
          rcases List.mem_map.mp hgood.2.2 with ⟨x, hx, hfst⟩
          rw [← hfst]
          exact rank_assets_tickers_sub hx
  · rw [if_neg hd]
    exact ⟨h1, h2, hq⟩

theorem valuationPass_cash (date : ℕ) (cp : String → Option ℚ) (s : EngineState) :
    (valuationPass date cp s).cash = s.cash := rfl

theorem valuationPass_comms (date : ℕ) (cp : String → Option ℚ) (s : EngineState) :
    (valuationPass date cp s).total_commissions = s.total_commissions := rfl

theorem valuationPass_holdings (date : ℕ) (cp : String → Option ℚ) (s : EngineState) :
    (valuationPass date cp s).holdings = s.holdings := rfl

/-- The backtest invariant: commissions are nonnegative, cash is bounded below
by minus the commissions paid so far, and every held position has a positive
quantity of a known ticker — provided every defined price in the table is
positive. -/
theorem backtest_inv (tbl : PriceTable)
    (hpos : ∀ t ∈ tbl.tickers, ∀ i, i < tbl.dates.length →
      ∀ p, tbl.price t i = some p → 0 < p) :
    ∀ k, k ≤ tbl.dates.length - LOOKBACK_MOM →
      0 ≤ (backtestUpTo tbl k).total_commissions ∧
      -(backtestUpTo tbl k).total_commissions ≤ (backtestUpTo tbl k).cash ∧
      ∀ h ∈ (backtestUpTo tbl k).holdings, h.1 ∈ tbl.tickers ∧ 0 < h.2.qty := by
  intro k
  induction k with
  | zero =>
    intro _
    refine ⟨le_refl 0, by norm_num [backtestUpTo, initState, INITIAL_CAPITAL], ?_⟩
    intro h hh
    simp [backtestUpTo, initState] at hh
  | succ n ih =>
    intro hk
    obtain ⟨ih1, ih2, ih3⟩ := ih (le_trans (Nat.le_succ n) hk)
    rw [backtestUpTo_succ]
    have hL : LOOKBACK_MOM = 90 := rfl
    have hiN : LOOKBACK_MOM + n < tbl.dates.length := by omega
    have hcpt : ∀ t ∈ tbl.tickers, ∀ p,
        (fun u => tbl.price u (LOOKBACK_MOM + n)) t = some p → 0 < p :=
      fun t ht p hp => hpos t ht (LOOKBACK_MOM + n) hiN p hp
    obtain ⟨a1, a2, a3⟩ := stopLossPass_inv (fun u => tbl.price u (LOOKBACK_MOM + n))
      (backtestUpTo tbl n) tbl.tickers
      (fun h hh p hp => hcpt h.1 (ih3 h hh).1 p hp) ih1 ih2 ih3
    obtain ⟨b1, b2, b3⟩ := rebalancePass_inv tbl (tbl.dates.getD (LOOKBACK_MOM + n) 0)
      (fun u => tbl.price u (LOOKBACK_MOM + n))
      (stopLossPass (fun u => tbl.price u (LOOKBACK_MOM + n)) (backtestUpTo tbl n))
      hcpt a1 a2 a3
    exact ⟨b1, b2, b3⟩

/-! ## Concrete evaluation: tblJump (single ticker, jump at row 90) -/

set_option maxRecDepth 8000

set_option maxHeartbeats 1600000

theorem catOf_TSLA : catOf "TSLA" = "Aggressive Growth" := by decide

theorem catOf_JNJ : catOf "JNJ" = "Defense / Low Vol" := by decide

theorem retCol_jump_mom :
    retCol tblJump "TSLA" 91 LOOKBACK_MOM
      = none :: (List.replicate 88 (some (0:ℚ)) ++ [some 1, some 0]) := by
  show retCol tblJump "TSLA" 91 90 = _
  norm_num [retCol, colSeries, winIdx, tblJump, pctChange, pctGo, List.range',
    List.replicate]

theorem retCol_jump_vol :
    retCol tblJump "TSLA" 91 LOOKBACK_VOL
      = none :: (List.replicate 28 (some (0:ℚ)) ++ [some 1, some 0]) := by
  show retCol tblJump "TSLA" 91 30 = _
  norm_num [retCol, colSeries, winIdx, tblJump, pctChange, pctGo, List.range',
    List.replicate]

theorem keptIdx_jump_mom : keptIdx tblJump 91 LOOKBACK_MOM = List.range' 1 90 := by
  rw [keptIdx]
  rw [show tblJump.tickers = ["TSLA"] from rfl]
  simp only [List.all_cons, List.all_nil, retCol_jump_mom]
  decide

theorem keptIdx_jump_vol : keptIdx tblJump 91 LOOKBACK_VOL = List.range' 1 30 := by
  rw [keptIdx]
  rw [show tblJump.tickers = ["TSLA"] from rfl]
  simp only [List.all_cons, List.all_nil, retCol_jump_vol]
  decide

theorem momentum_jump : momentumOf tblJump 91 "TSLA" = some (1/90) := by
  rw [momentumOf, keptIdx_jump_mom, retCol_jump_mom]
  norm_num [keptVals, meanQ, List.range', List.replicate, List.filterMap]

theorem variance_jump : varianceOf tblJump 91 "TSLA" = some (1/30) := by
  rw [varianceOf, keptIdx_jump_vol, retCol_jump_vol]
  norm_num [keptVals, sampleVarQ, List.range', List.replicate, List.filterMap]

theorem eligible_jump : eligibleList tblJump 91 = [("TSLA", 1/90, 1/30)] := by
  rw [eligibleList]
  rw [show tblJump.tickers = ["TSLA"] from rfl]
  rw [List.filterMap_cons]
  rw [momentum_jump, variance_jump]
  norm_num

theorem rank_sel_jump : rank_sel 91 tblJump = [("TSLA", 1/90, 1/30)] := by
  rw [rank_sel]
  rw [if_neg (by norm_num [LOOKBACK_MOM])]
  rw [eligible_jump]
  rw [show sortDesc [("TSLA", (1:ℚ)/90, (1:ℚ)/30)] = [("TSLA", 1/90, 1/30)] from rfl]
  rw [show List.filter (fun c => decide (0 < c.2.1)) [("TSLA", (1:ℚ)/90, (1:ℚ)/30)]
      = [("TSLA", 1/90, 1/30)] by norm_num [List.filter]]
  rw [selGo, if_neg (by norm_num [TOP_N]), if_neg (by rw [catOf_TSLA]; decide),
    if_neg (by norm_num [MAX_SECTOR_WEIGHT, TOP_N])]
  rw [selGo]
  rfl

theorem get_loc_jump : get_loc tblJump 95 = some 91 := by decide

theorem rank_assets_jump : rank_assets 95 tblJump = some [("TSLA", (1:ℝ))] := by
  unfold rank_assets
  rw [get_loc_jump]
  simp only [Option.map_some']
  rw [rank_sel_jump]
  rw [weightsOf_singleton (by norm_num) (by norm_num)]

/-! ## Engine pass shortcut lemmas -/

theorem stopLossPass_nil (cp : String → Option ℚ) (s : EngineState)
    (h : s.holdings = []) : stopLossPass cp s = s := by
  unfold stopLossPass slTriggered
  rw [h]
  simp only [List.filter_nil, List.map_nil, List.sum_nil, add_zero]
  rw [← h]

theorem rebalancePass_skip {tbl : PriceTable} {date : ℕ} (cp : String → Option ℚ)
    (s : EngineState) (h : date ∉ rebalance_dates tbl) :
    rebalancePass tbl date cp s = s := by
  unfold rebalancePass
  rw [if_neg h]

theorem rebalancePass_empty {tbl : PriceTable} {date : ℕ} (cp : String → Option ℚ)
    (s : EngineState) (h : (rank_assets date tbl).getD [] = []) :
    rebalancePass tbl date cp s = s := by
  unfold rebalancePass
  by_cases hd : date ∈ rebalance_dates tbl
  · rw [if_pos hd, if_pos h]
  · rw [if_neg hd]

/-! ## Concrete engine run on tblJump -/

theorem initState_jump :
    initState tblJump =
      { cash := 100000, holdings := [], portfolio_value := [100000],
        dates_track := [94], total_commissions := 0 } := by
  unfold initState
  rw [show tblJump.dates.getD LOOKBACK_MOM 0 = 94 from by decide]
  rfl

theorem step_jump_90 :
    engineStep tblJump (initState tblJump) 90 =
      { cash := 100000, holdings := [], portfolio_value := [100000, 100000],
        dates_track := [94, 94], total_commissions := 0 } := by
  have hnf : tblJump.dates.getD 90 0 ∉ rebalance_dates tblJump := by decide
  unfold engineStep
  rw [initState_jump]
  rw [stopLossPass_nil _ _ rfl, rebalancePass_skip _ _ hnf]
  rw [show tblJump.dates.getD 90 0 = 94 from by decide]
  norm_num [valuationPass, sellValues]

theorem step_jump_91 :
    engineStep tblJump
      { cash := 100000, holdings := [], portfolio_value := [100000, 100000],
        dates_track := [94, 94], total_commissions := 0 } 91 =
      { cash := -50, holdings := [("TSLA", ⟨500, 200⟩)],
        portfolio_value := [100000, 100000, 99950], dates_track := [94, 94, 95],
        total_commissions := 50 } := by
  have hmem : (95:ℕ) ∈ rebalance_dates tblJump := by decide
  have hp : tblJump.price "TSLA" 91 = some 200 := by decide
  unfold engineStep
  rw [show tblJump.dates.getD 91 0 = 95 from by decide]
  rw [stopLossPass_nil _ _ rfl]
  unfold rebalancePass
  rw [if_pos hmem, rank_assets_jump]
  simp only [Option.getD_some]
  rw [if_neg (by simp)]
  norm_num [sellValues, buyStep, hp, valuationPass, calc_commission,
    COMMISSION_RATE, MIN_COMMISSION, MAX_COMMISSION_PCT, List.filterMap_cons,
    List.filterMap_nil]

theorem backtestUpTo_jump_1 :
    backtestUpTo tblJump 1 =
      { cash := 100000, holdings := [], portfolio_value := [100000, 100000],
        dates_track := [94, 94], total_commissions := 0 } := by
  have h := backtestUpTo_succ tblJump 0
  norm_num [LOOKBACK_MOM] at h
  rw [h, backtestUpTo_zero, step_jump_90]

theorem backtest_jump :
    backtest tblJump =
      { cash := -50, holdings := [("TSLA", ⟨500, 200⟩)],
        portfolio_value := [100000, 100000, 99950], dates_track := [94, 94, 95],
        total_commissions := 50 } := by
  have h0 : backtest tblJump = backtestUpTo tblJump 2 := by
    unfold backtest
    rw [show tblJump.dates.length - LOOKBACK_MOM = 2 from by decide]
  have h := backtestUpTo_succ tblJump 1
  norm_num [LOOKBACK_MOM] at h
  rw [h0, h, backtestUpTo_jump_1, step_jump_91]

/-! ## Concrete engine run on tblSeed (91 rows, no tickers, no Friday) -/

theorem initState_seed :
    initState tblSeed =
      { cash := 100000, holdings := [], portfolio_value := [100000],
        dates_track := [90], total_commissions := 0 } := by
  unfold initState
  rw [show tblSeed.dates.getD LOOKBACK_MOM 0 = 90 from by decide]
  rfl

theorem backtest_seed :
    backtest tblSeed =
      { cash := 100000, holdings := [], portfolio_value := [100000, 100000],
        dates_track := [90, 90], total_commissions := 0 } := by
  have h0 : backtest tblSeed = backtestUpTo tblSeed 1 := by
    unfold backtest
    rw [show tblSeed.dates.length - LOOKBACK_MOM = 1 from by decide]
  have h := backtestUpTo_succ tblSeed 0
  norm_num [LOOKBACK_MOM] at h
  rw [h0, h, backtestUpTo_zero]
  have hnf : tblSeed.dates.getD 90 0 ∉ rebalance_dates tblSeed := by decide
  unfold engineStep
  rw [initState_seed]
  rw [stopLossPass_nil _ _ rfl, rebalancePass_skip _ _ hnf]
  rw [show tblSeed.dates.getD 90 0 = 90 from by decide]
  norm_num [valuationPass, sellValues]

/-! ## Concrete evaluation: tblGap (gap at row 70, still selected) -/

theorem retCol_gap_mom :
    retCol tblGap "TSLA" 91 LOOKBACK_MOM
      = none :: (List.replicate 68 (some (0:ℚ)) ++ ([none, none] ++
          (List.replicate 18 (some (0:ℚ)) ++ [some 2, some 0]))) := by
  show retCol tblGap "TSLA" 91 90 = _
  norm_num [retCol, colSeries, winIdx, tblGap, pctChange, pctGo, List.range',
    List.replicate]

theorem retCol_gap_vol :
    retCol tblGap "TSLA" 91 LOOKBACK_VOL
      = none :: (List.replicate 8 (some (0:ℚ)) ++ ([none, none] ++
          (List.replicate 18 (some (0:ℚ)) ++ [some 2, some 0]))) := by
  show retCol tblGap "TSLA" 91 30 = _
  norm_num [retCol, colSeries, winIdx, tblGap, pctChange, pctGo, List.range',
    List.replicate]

theorem keptIdx_gap_mom :
    keptIdx tblGap 91 LOOKBACK_MOM = List.range' 1 68 ++ List.range' 71 20 := by
  rw [keptIdx]
  rw [show tblGap.tickers = ["TSLA"] from rfl]
  simp only [List.all_cons, List.all_nil, retCol_gap_mom]
  decide

theorem keptIdx_gap_vol :
    keptIdx tblGap 91 LOOKBACK_VOL = List.range' 1 8 ++ List.range' 11 20 := by
  rw [keptIdx]
  rw [show tblGap.tickers = ["TSLA"] from rfl]
  simp only [List.all_cons, List.all_nil, retCol_gap_vol]
  decide

theorem momentum_gap : momentumOf tblGap 91 "TSLA" = some (1/44) := by
  rw [momentumOf, keptIdx_gap_mom, retCol_gap_mom]
  norm_num [keptVals, meanQ, List.range', List.replicate, List.filterMap]

theorem variance_gap : varianceOf tblGap 91 "TSLA" = some (1/7) := by
  rw [varianceOf, keptIdx_gap_vol, retCol_gap_vol]
  norm_num [keptVals, sampleVarQ, List.range', List.replicate, List.filterMap]

theorem eligible_gap : eligibleList tblGap 91 = [("TSLA", 1/44, 1/7)] := by
  rw [eligibleList]
  rw [show tblGap.tickers = ["TSLA"] from rfl]
  rw [List.filterMap_cons]
  rw [momentum_gap, variance_gap]
  norm_num

theorem rank_sel_gap : rank_sel 91 tblGap = [("TSLA", 1/44, 1/7)] := by
  rw [rank_sel]
  rw [if_neg (by norm_num [LOOKBACK_MOM])]
  rw [eligible_gap]
  rw [show sortDesc [("TSLA", (1:ℚ)/44, (1:ℚ)/7)] = [("TSLA", 1/44, 1/7)] from rfl]
  rw [show List.filter (fun c => decide (0 < c.2.1)) [("TSLA", (1:ℚ)/44, (1:ℚ)/7)]
      = [("TSLA", 1/44, 1/7)] by norm_num [List.filter]]
  rw [selGo, if_neg (by norm_num [TOP_N]), if_neg (by rw [catOf_TSLA]; decide),
    if_neg (by norm_num [MAX_SECTOR_WEIGHT, TOP_N])]
  rw [selGo]
  rfl

theorem rank_assets_gap : rank_assets 95 tblGap = some [("TSLA", (1:ℝ))] := by
  unfold rank_assets
  rw [show get_loc tblGap 95 = some 91 from by decide]
  simp only [Option.map_some']
  rw [rank_sel_gap]
  rw [weightsOf_singleton (by norm_num) (by norm_num)]

/-! ## Concrete evaluation: tblStrand, ranker at row 91 -/

theorem retCol_strand_T_mom91 :
    retCol tblStrand "TSLA" 91 LOOKBACK_MOM
      = none :: (List.replicate 62 (some (0:ℚ)) ++ ([some 2] ++
          List.replicate 27 (some (0:ℚ)))) := by
  show retCol tblStrand "TSLA" 91 90 = _
  norm_num [retCol, colSeries, winIdx, tblStrand, pctChange, pctGo, List.range',
    List.replicate]

theorem retCol_strand_J_mom91 :
    retCol tblStrand "JNJ" 91 LOOKBACK_MOM
      = none :: List.replicate 90 (some (0:ℚ)) := by
  show retCol tblStrand "JNJ" 91 90 = _
  have hne : (("JNJ":String) = "TSLA") = False := eq_false (by decide)
  norm_num [retCol, colSeries, winIdx, tblStrand, pctChange, pctGo, List.range',
    List.replicate, hne]

theorem retCol_strand_T_vol91 :
    retCol tblStrand "TSLA" 91 LOOKBACK_VOL
      = none :: (List.replicate 2 (some (0:ℚ)) ++ ([some 2] ++
          List.replicate 27 (some (0:ℚ)))) := by
  show retCol tblStrand "TSLA" 91 30 = _
  norm_num [retCol, colSeries, winIdx, tblStrand, pctChange, pctGo, List.range',
    List.replicate]

theorem retCol_strand_J_vol91 :
    retCol tblStrand "JNJ" 91 LOOKBACK_VOL
      = none :: List.replicate 30 (some (0:ℚ)) := by
  show retCol tblStrand "JNJ" 91 30 = _
  have hne : (("JNJ":String) = "TSLA") = False := eq_false (by decide)
  norm_num [retCol, colSeries, winIdx, tblStrand, pctChange, pctGo, List.range',
    List.replicate, hne]

theorem keptIdx_strand_mom91 : keptIdx tblStrand 91 LOOKBACK_MOM = List.range' 1 90 := by
  rw [keptIdx]
  rw [show tblStrand.tickers = ["TSLA", "JNJ"] from rfl]
  simp only [List.all_cons, List.all_nil, retCol_strand_T_mom91, retCol_strand_J_mom91]
  decide

theorem keptIdx_strand_vol91 : keptIdx tblStrand 91 LOOKBACK_VOL = List.range' 1 30 := by
  rw [keptIdx]
  rw [show tblStrand.tickers = ["TSLA", "JNJ"] from rfl]
  simp only [List.all_cons, List.all_nil, retCol_strand_T_vol91, retCol_strand_J_vol91]
  decide

theorem momentum_strand_T91 : momentumOf tblStrand 91 "TSLA" = some (1/45) := by
  rw [momentumOf, keptIdx_strand_mom91, retCol_strand_T_mom91]
  norm_num [keptVals, meanQ, List.range', List.replicate, List.filterMap]

theorem momentum_strand_J91 : momentumOf tblStrand 91 "JNJ" = some 0 := by
  rw [momentumOf, keptIdx_strand_mom91, retCol_strand_J_mom91]
  norm_num [keptVals, meanQ, List.range', List.replicate, List.filterMap]

theorem variance_strand_T91 : varianceOf tblStrand 91 "TSLA" = some (2/15) := by
  rw [varianceOf, keptIdx_strand_vol91, retCol_strand_T_vol91]
  norm_num [keptVals, sampleVarQ, List.range', List.replicate, List.filterMap]

theorem variance_strand_J91 : varianceOf tblStrand 91 "JNJ" = some 0 := by
  rw [varianceOf, keptIdx_strand_vol91, retCol_strand_J_vol91]
  norm_num [keptVals, sampleVarQ, List.range', List.replicate, List.filterMap]

theorem eligible_strand91 : eligibleList tblStrand 91 = [("TSLA", 1/45, 2/15)] := by
  rw [eligibleList]
  rw [show tblStrand.tickers = ["TSLA", "JNJ"] from rfl]
  rw [List.filterMap_cons]
  rw [momentum_strand_T91, variance_strand_T91]
  rw [List.filterMap_cons]
  rw [momentum_strand_J91, variance_strand_J91]
  norm_num

theorem rank_sel_strand91 : rank_sel 91 tblStrand = [("TSLA", 1/45, 2/15)] := by
  rw [rank_sel]
  rw [if_neg (by norm_num [LOOKBACK_MOM])]
  rw [eligible_strand91]
  rw [show sortDesc [("TSLA", (1:ℚ)/45, (2:ℚ)/15)] = [("TSLA", 1/45, 2/15)] from rfl]
  rw [show List.filter (fun c => decide (0 < c.2.1)) [("TSLA", (1:ℚ)/45, (2:ℚ)/15)]
      = [("TSLA", 1/45, 2/15)] by norm_num [List.filter]]
  rw [selGo, if_neg (by norm_num [TOP_N]), if_neg (by rw [catOf_TSLA]; decide),
    if_neg (by norm_num [MAX_SECTOR_WEIGHT, TOP_N])]
  rw [selGo]
  rfl

theorem rank_assets_strand91 : rank_assets 95 tblStrand = some [("TSLA", (1:ℝ))] := by
  unfold rank_assets
  rw [show get_loc tblStrand 95 = some 91 from by decide]
  simp only [Option.map_some']
  rw [rank_sel_strand91]
  rw [weightsOf_singleton (by norm_num) (by norm_num)]

/-! ## Concrete evaluation: tblStrand, ranker at row 96 -/

theorem retCol_strand_T_mom96 :
    retCol tblStrand "TSLA" 96 LOOKBACK_MOM
      = none :: (List.replicate 57 (some (0:ℚ)) ++ ([some 2] ++
          (List.replicate 31 (some (0:ℚ)) ++ [none]))) := by
  show retCol tblStrand "TSLA" 96 90 = _
  norm_num [retCol, colSeries, winIdx, tblStrand, pctChange, pctGo, List.range',
    List.replicate]

theorem retCol_strand_J_mom96 :
    retCol tblStrand "JNJ" 96 LOOKBACK_MOM
      = none :: (List.replicate 85 (some (0:ℚ)) ++ ([some 1] ++
          List.replicate 4 (some (0:ℚ)))) := by
  show retCol tblStrand "JNJ" 96 90 = _
  have hne : (("JNJ":String) = "TSLA") = False := eq_false (by decide)
  norm_num [retCol, colSeries, winIdx, tblStrand, pctChange, pctGo, List.range',
    List.replicate, hne]

theorem retCol_strand_T_vol96 :
    retCol tblStrand "TSLA" 96 LOOKBACK_VOL
      = none :: (List.replicate 29 (some (0:ℚ)) ++ [none]) := by
  show retCol tblStrand "TSLA" 96 30 = _
  norm_num [retCol, colSeries, winIdx, tblStrand, pctChange, pctGo, List.range',
    List.replicate]

theorem retCol_strand_J_vol96 :
    retCol tblStrand "JNJ" 96 LOOKBACK_VOL
      = none :: (List.replicate 25 (some (0:ℚ)) ++ ([some 1] ++
          List.replicate 4 (some (0:ℚ)))) := by
  show retCol tblStrand "JNJ" 96 30 = _
  have hne : (("JNJ":String) = "TSLA") = False := eq_false (by decide)
  norm_num [retCol, colSeries, winIdx, tblStrand, pctChange, pctGo, List.range',
    List.replicate, hne]

theorem keptIdx_strand_mom96 : keptIdx tblStrand 96 LOOKBACK_MOM = List.range' 1 89 := by
  rw [keptIdx]
  rw [show tblStrand.tickers = ["TSLA", "JNJ"] from rfl]
  simp only [List.all_cons, List.all_nil, retCol_strand_T_mom96, retCol_strand_J_mom96]
  decide

theorem keptIdx_strand_vol96 : keptIdx tblStrand 96 LOOKBACK_VOL = List.range' 1 29 := by
  rw [keptIdx]
  rw [show tblStrand.tickers = ["TSLA", "JNJ"] from rfl]
  simp only [List.all_cons, List.all_nil, retCol_strand_T_vol96, retCol_strand_J_vol96]
  decide

theorem momentum_strand_T96 : momentumOf tblStrand 96 "TSLA" = some (2/89) := by
  rw [momentumOf, keptIdx_strand_mom96, retCol_strand_T_mom96]
  norm_num [keptVals, meanQ, List.range', List.replicate, List.filterMap]

theorem momentum_strand_J96 : momentumOf tblStrand 96 "JNJ" = some (1/89) := by
  rw [momentumOf, keptIdx_strand_mom96, retCol_strand_J_mom96]
  norm_num [keptVals, meanQ, List.range', List.replicate, List.filterMap]

theorem variance_strand_T96 : varianceOf tblStrand 96 "TSLA" = some 0 := by
  rw [varianceOf, keptIdx_strand_vol96, retCol_strand_T_vol96]
  norm_num [keptVals, sampleVarQ, List.range', List.replicate, List.filterMap]

theorem variance_strand_J96 : varianceOf tblStrand 96 "JNJ" = some (1/29) := by
  rw [varianceOf, keptIdx_strand_vol96, retCol_strand_J_vol96]
  norm_num [keptVals, sampleVarQ, List.range', List.replicate, List.filterMap]

theorem eligible_strand96 : eligibleList tblStrand 96 = [("JNJ", 1/89, 1/29)] := by
  rw [eligibleList]
  rw [show tblStrand.tickers = ["TSLA", "JNJ"] from rfl]
  rw [List.filterMap_cons]
  rw [momentum_strand_T96, variance_strand_T96]
  rw [List.filterMap_cons]
  rw [momentum_strand_J96, variance_strand_J96]
  norm_num

theorem rank_sel_strand96 : rank_sel 96 tblStrand = [("JNJ", 1/89, 1/29)] := by
  rw [rank_sel]
  rw [if_neg (by norm_num [LOOKBACK_MOM])]
  rw [eligible_strand96]
  rw [show sortDesc [("JNJ", (1:ℚ)/89, (1:ℚ)/29)] = [("JNJ", 1/89, 1/29)] from rfl]
  rw [show List.filter (fun c => decide (0 < c.2.1)) [("JNJ", (1:ℚ)/89, (1:ℚ)/29)]
      = [("JNJ", 1/89, 1/29)] by norm_num [List.filter]]
  rw [selGo, if_neg (by norm_num [TOP_N]), if_neg (by rw [catOf_JNJ]; decide),
    if_neg (by norm_num [MAX_SECTOR_WEIGHT, TOP_N])]
  rw [selGo]
  rfl

theorem rank_assets_strand96 : rank_assets 102 tblStrand = some [("JNJ", (1:ℝ))] := by
  unfold rank_assets
  rw [show get_loc tblStrand 102 = some 96 from by decide]
  simp only [Option.map_some']
  rw [rank_sel_strand96]
  rw [weightsOf_singleton (by norm_num) (by norm_num)]

/-! ## Concrete engine run on tblStrand -/

theorem stopLossPass_notrig (cp : String → Option ℚ) (s : EngineState)
    (h : slTriggered cp s.holdings = []) : stopLossPass cp s = s := by
  unfold stopLossPass
  rw [h]
  simp only [List.map_nil, List.sum_nil, add_zero, List.any_nil, Bool.not_false,
    List.filter_true]

theorem initState_strand :
    initState tblStrand =
      { cash := 100000, holdings := [], portfolio_value := [100000],
        dates_track := [94], total_commissions := 0 } := by
  unfold initState
  rw [show tblStrand.dates.getD LOOKBACK_MOM 0 = 94 from by decide]
  rfl

theorem step_strand_90 :
    engineStep tblStrand (initState tblStrand) 90 =
      { cash := 100000, holdings := [], portfolio_value := [100000, 100000],
        dates_track := [94, 94], total_commissions := 0 } := by
  have hnf : tblStrand.dates.getD 90 0 ∉ rebalance_dates tblStrand := by decide
  unfold engineStep
  rw [initState_strand]
  rw [stopLossPass_nil _ _ rfl, rebalancePass_skip _ _ hnf]
  rw [show tblStrand.dates.getD 90 0 = 94 from by decide]
  norm_num [valuationPass, sellValues]

theorem step_strand_91 :
    engineStep tblStrand
      { cash := 100000, holdings := [], portfolio_value := [100000, 100000],
        dates_track := [94, 94], total_commissions := 0 } 91 =
      { cash := 1001/20, holdings := [("TSLA", ⟨333, 300⟩)],
        portfolio_value := [100000, 100000, 1999001/20],
        dates_track := [94, 94, 95], total_commissions := 999/20 } := by
  have hmem : (95:ℕ) ∈ rebalance_dates tblStrand := by decide
  have hp : tblStrand.price "TSLA" 91 = some 300 := by decide
  unfold engineStep
  rw [show tblStrand.dates.getD 91 0 = 95 from by decide]
  rw [stopLossPass_nil _ _ rfl]
  unfold rebalancePass
  rw [if_pos hmem, rank_assets_strand91]
  simp only [Option.getD_some]
  rw [if_neg (by simp)]
  norm_num [sellValues, buyStep, hp, valuationPass, calc_commission,
    COMMISSION_RATE, MIN_COMMISSION, MAX_COMMISSION_PCT, List.filterMap_cons,
    List.filterMap_nil]

theorem step_strand_92 :
    engineStep tblStrand
      { cash := 1001/20, holdings := [("TSLA", ⟨333, 300⟩)],
        portfolio_value := [100000, 100000, 1999001/20],
        dates_track := [94, 94, 95], total_commissions := 999/20 } 92 =
      { cash := 1001/20, holdings := [("TSLA", ⟨333, 300⟩)],
        portfolio_value := [100000, 100000, 1999001/20, 1999001/20],
        dates_track := [94, 94, 95, 98], total_commissions := 999/20 } := by
  have hp : tblStrand.price "TSLA" 92 = some 300 := by decide
  have htrig : slTriggered (fun t => tblStrand.price t 92)
      [("TSLA", (⟨333, 300⟩ : Position))] = [] := by
    unfold slTriggered
    norm_num [List.filter, hp, STOP_LOSS_PCT]
  have hnf : tblStrand.dates.getD 92 0 ∉ rebalance_dates tblStrand := by decide
  unfold engineStep
  rw [stopLossPass_notrig _ _ htrig, rebalancePass_skip _ _ hnf]
  rw [show tblStrand.dates.getD 92 0 = 98 from by decide]
  norm_num [valuationPass, sellValues, hp, List.filterMap_cons, List.filterMap_nil]

theorem step_strand_93 :
    engineStep tblStrand
      { cash := 1001/20, holdings := [("TSLA", ⟨333, 300⟩)],
        portfolio_value := [100000, 100000, 1999001/20, 1999001/20],
        dates_track := [94, 94, 95, 98], total_commissions := 999/20 } 93 =
      { cash := 1001/20, holdings := [("TSLA", ⟨333, 300⟩)],
        portfolio_value := [100000, 100000, 1999001/20, 1999001/20, 1999001/20],
        dates_track := [94, 94, 95, 98, 99], total_commissions := 999/20 } := by
  have hp : tblStrand.price "TSLA" 93 = some 300 := by decide
  have htrig : slTriggered (fun t => tblStrand.price t 93)
      [("TSLA", (⟨333, 300⟩ : Position))] = [] := by
    unfold slTriggered
    norm_num [List.filter, hp, STOP_LOSS_PCT]
  have hnf : tblStrand.dates.getD 93 0 ∉ rebalance_dates tblStrand := by decide
  unfold engineStep
  rw [stopLossPass_notrig _ _ htrig, rebalancePass_skip _ _ hnf]
  rw [show tblStrand.dates.getD 93 0 = 99 from by decide]
  norm_num [valuationPass, sellValues, hp, List.filterMap_cons, List.filterMap_nil]

theorem step_strand_94 :
    engineStep tblStrand
      { cash := 1001/20, holdings := [("TSLA", ⟨333, 300⟩)],
        portfolio_value := [100000, 100000, 1999001/20, 1999001/20, 1999001/20],
        dates_track := [94, 94, 95, 98, 99], total_commissions := 999/20 } 94 =
      { cash := 1001/20, holdings := [("TSLA", ⟨333, 300⟩)],
        portfolio_value := [100000, 100000, 1999001/20, 1999001/20, 1999001/20, 1999001/20],
        dates_track := [94, 94, 95, 98, 99, 100], total_commissions := 999/20 } := by
  have hp : tblStrand.price "TSLA" 94 = some 300 := by decide
  have htrig : slTriggered (fun t => tblStrand.price t 94)
      [("TSLA", (⟨333, 300⟩ : Position))] = [] := by
    unfold slTriggered
    norm_num [List.filter, hp, STOP_LOSS_PCT]
  have hnf : tblStrand.dates.getD 94 0 ∉ rebalance_dates tblStrand := by decide
  unfold engineStep
  rw [stopLossPass_notrig _ _ htrig, rebalancePass_skip _ _ hnf]
  rw [show tblStrand.dates.getD 94 0 = 100 from by decide]
  norm_num [valuationPass, sellValues, hp, List.filterMap_cons, List.filterMap_nil]

theorem step_strand_95 :
    engineStep tblStrand
      { cash := 1001/20, holdings := [("TSLA", ⟨333, 300⟩)],
        portfolio_value := [100000, 100000, 1999001/20, 1999001/20, 1999001/20, 1999001/20],
        dates_track := [94, 94, 95, 98, 99, 100], total_commissions := 999/20 } 95 =
      { cash := 1001/20, holdings := [("TSLA", ⟨333, 300⟩)],
        portfolio_value := [100000, 100000, 1999001/20, 1999001/20, 1999001/20, 1999001/20, 1999001/20],
        dates_track := [94, 94, 95, 98, 99, 100, 101], total_commissions := 999/20 } := by
  have hp : tblStrand.price "TSLA" 95 = some 300 := by decide
  have htrig : slTriggered (fun t => tblStrand.price t 95)
      [("TSLA", (⟨333, 300⟩ : Position))] = [] := by
    unfold slTriggered
    norm_num [List.filter, hp, STOP_LOSS_PCT]
  have hnf : tblStrand.dates.getD 95 0 ∉ rebalance_dates tblStrand := by decide
  unfold engineStep
  rw [stopLossPass_notrig _ _ htrig, rebalancePass_skip _ _ hnf]
  rw [show tblStrand.dates.getD 95 0 = 101 from by decide]
  norm_num [valuationPass, sellValues, hp, List.filterMap_cons, List.filterMap_nil]

theorem step_strand_96 :
    engineStep tblStrand
      { cash := 1001/20, holdings := [("TSLA", ⟨333, 300⟩)],
        portfolio_value := [100000, 100000, 1999001/20, 1999001/20, 1999001/20, 1999001/20, 1999001/20],
        dates_track := [94, 94, 95, 98, 99, 100, 101], total_commissions := 999/20 } 96 =
      { cash := 1001/20, holdings := [],
        portfolio_value := [100000, 100000, 1999001/20, 1999001/20, 1999001/20, 1999001/20, 1999001/20, 1001/20],
        dates_track := [94, 94, 95, 98, 99, 100, 101, 102], total_commissions := 999/20 } := by
  have hpn : tblStrand.price "TSLA" 96 = none := by decide
  have hpJ : tblStrand.price "JNJ" 96 = some 200 := by decide
  have htrig : slTriggered (fun t => tblStrand.price t 96)
      [("TSLA", (⟨333, 300⟩ : Position))] = [] := by
    unfold slTriggered
    norm_num [List.filter, hpn]
  have hmem : (102:ℕ) ∈ rebalance_dates tblStrand := by decide
  unfold engineStep
  rw [show tblStrand.dates.getD 96 0 = 102 from by decide]
  rw [stopLossPass_notrig _ _ htrig]
  unfold rebalancePass
  rw [if_pos hmem, rank_assets_strand96]
  simp only [Option.getD_some]
  rw [if_neg (by simp)]
  norm_num [sellValues, buyStep, hpn, hpJ, valuationPass, calc_commission,
    COMMISSION_RATE, MIN_COMMISSION, MAX_COMMISSION_PCT, List.filterMap_cons,
    List.filterMap_nil]

theorem backtestUpTo_strand_6 :
    backtestUpTo tblStrand 6 =
      { cash := 1001/20, holdings := [("TSLA", ⟨333, 300⟩)],
        portfolio_value := [100000, 100000, 1999001/20, 1999001/20, 1999001/20, 1999001/20, 1999001/20],
        dates_track := [94, 94, 95, 98, 99, 100, 101], total_commissions := 999/20 } := by
  have h1 := backtestUpTo_succ tblStrand 0
  have h2 := backtestUpTo_succ tblStrand 1
  have h3 := backtestUpTo_succ tblStrand 2
  have h4 := backtestUpTo_succ tblStrand 3
  have h5 := backtestUpTo_succ tblStrand 4
  have h6 := backtestUpTo_succ tblStrand 5
  norm_num [LOOKBACK_MOM] at h1 h2 h3 h4 h5 h6
  rw [h6, h5, h4, h3, h2, h1, backtestUpTo_zero]
  rw [step_strand_90, step_strand_91, step_strand_92, step_strand_93,
    step_strand_94, step_strand_95]

theorem backtestUpTo_strand_7 :
    backtestUpTo tblStrand 7 =
      { cash := 1001/20, holdings := [],
        portfolio_value := [100000, 100000, 1999001/20, 1999001/20, 1999001/20, 1999001/20, 1999001/20, 1001/20],
        dates_track := [94, 94, 95, 98, 99, 100, 101, 102], total_commissions := 999/20 } := by
  have h7 := backtestUpTo_succ tblStrand 6
  norm_num [LOOKBACK_MOM] at h7
  rw [h7, backtestUpTo_strand_6, step_strand_96]

/-! ## Claim theorems -/

/-- C1, as stated, is false: on tblStrand at the rebalance of row 96 the
ranker returns a non-empty allocation, TSLA is held with an undefined price,
it is not sold and no cash is credited (cash is unchanged) — but its position
does NOT remain in the holdings mapping: the rebalance clears holdings
entirely, so TSLA is gone afterwards. -/
theorem claim_C1_counterexample :
    ("TSLA", (⟨333, 300⟩ : Position)) ∈ (backtestUpTo tblStrand 6).holdings ∧
    tblStrand.price "TSLA" 96 = none ∧
    tblStrand.dates.getD 96 0 ∈ rebalance_dates tblStrand ∧
    (rank_assets (tblStrand.dates.getD 96 0) tblStrand).getD [] ≠ [] ∧
    "TSLA" ∉ ((backtestUpTo tblStrand 7).holdings.map Prod.fst) ∧
    (backtestUpTo tblStrand 7).cash = (backtestUpTo tblStrand 6).cash := by
  refine ⟨?_, by decide, by decide, ?_, ?_, ?_⟩
  · rw [backtestUpTo_strand_6]
    simp
  · rw [show tblStrand.dates.getD 96 0 = 102 from by decide, rank_assets_strand96]
    simp
  · rw [backtestUpTo_strand_7]
    simp
  · rw [backtestUpTo_strand_7, backtestUpTo_strand_6]

/-- C1 (amended): during a rebalance with a non-empty allocation, a held
ticker with an undefined price is not sold and contributes nothing to the
sale proceeds, but it does not stay either: the post-rebalance holdings
contain only newly bought tickers, all of which have a defined price, so the
unpriced ticker is absent afterwards. -/
theorem claim_C1_theorem (tbl : PriceTable) (date : ℕ) (cp : String → Option ℚ)
    (s : EngineState) (t : String) (pos : Position)
    (hd : date ∈ rebalance_dates tbl)
    (htw : (rank_assets date tbl).getD [] ≠ [])
    (hheld : (t, pos) ∈ s.holdings) (hnp : cp t = none) :
    t ∉ ((rebalancePass tbl date cp s).holdings.map Prod.fst) ∧
    (∀ u ∈ (rebalancePass tbl date cp s).holdings.map Prod.fst, (cp u).isSome) ∧
    sellValues cp s.holdings =
      sellValues cp (s.holdings.filter (fun h => (cp h.1).isSome)) := by
  have hall : ∀ u ∈ (rebalancePass tbl date cp s).holdings, (cp u.1).isSome := by
    intro u hu
    unfold rebalancePass at hu
    rw [if_pos hd, if_neg htw] at hu
    dsimp only at hu
    rcases buyFold_holdings _ cp _ _ u hu with hfalse | hgood
    · simp at hfalse
    · exact hgood.1
  refine ⟨?_, fun u hu => ?_, sellValues_unpriced cp s.holdings⟩
  · intro hmem
    rcases List.mem_map.mp hmem with ⟨u, hu, hfst⟩
    have hs := hall u hu
    rw [hfst, hnp] at hs
    simp at hs
  · rcases List.mem_map.mp hu with ⟨v, hv, hfst⟩
    rw [← hfst]
    exact hall v hv

/-- C1 witness: the amended theorem applied to the tblStrand scenario. -/
theorem claim_C1_witness :
    (102 ∈ rebalance_dates tblStrand) ∧
    "TSLA" ∉ ((rebalancePass tblStrand 102 (fun u => tblStrand.price u 96)
      { cash := 1001/20, holdings := [("TSLA", ⟨333, 300⟩)], portfolio_value := [],
        dates_track := [], total_commissions := 999/20 }).holdings.map Prod.fst) := by
  refine ⟨by decide, ?_⟩
  exact (claim_C1_theorem tblStrand 102 (fun u => tblStrand.price u 96) _ "TSLA" ⟨333, 300⟩
    (by decide) (by rw [rank_assets_strand96]; simp) (by simp) (by decide)).1

/-- C2, as stated, is false: on a 91-row table the value series has 2 entries
rather than 91 - 90 = 1, and its dates are not strictly increasing (the seed
date equals the first simulated date). -/
theorem claim_C2_counterexample :
    (backtest tblSeed).portfolio_value.length ≠ tblSeed.dates.length - LOOKBACK_MOM ∧
    ¬ List.Chain' (· < ·) ((backtest tblSeed).dates_track) := by
  rw [backtest_seed]
  refine ⟨by decide, ?_⟩
  simp [List.chain'_cons]

/-- C2 (amended): the value series has one entry per simulated date PLUS the
seed entry — (N - LOOKBACK_MOM) + 1 entries in total; its date track is the
date at index LOOKBACK_MOM followed by the simulated dates in table order (so
the first simulated date appears twice and the dates are only non-decreasing);
the first recorded value is the starting capital. -/
theorem claim_C2_theorem (tbl : PriceTable) (h : LOOKBACK_MOM < tbl.dates.length) :
    (backtest tbl).dates_track =
      tbl.dates.getD LOOKBACK_MOM 0 ::
        (List.range' LOOKBACK_MOM (tbl.dates.length - LOOKBACK_MOM)).map
          (fun i => tbl.dates.getD i 0) ∧
    (backtest tbl).portfolio_value.length = (tbl.dates.length - LOOKBACK_MOM) + 1 ∧
    (backtest tbl).portfolio_value.head? = some INITIAL_CAPITAL := by
  unfold backtest
  refine ⟨backtestUpTo_dates tbl _, ?_, ?_⟩
  · rcases backtestUpTo_pv_shape tbl (tbl.dates.length - LOOKBACK_MOM) with ⟨r, hr, hlen⟩
    rw [hr]
    simp [hlen]
  · rcases backtestUpTo_pv_shape tbl (tbl.dates.length - LOOKBACK_MOM) with ⟨r, hr, _⟩
    rw [hr]
    rfl

/-- C2 witness: the amended theorem applied to tblJump. -/
theorem claim_C2_witness :
    LOOKBACK_MOM < tblJump.dates.length ∧
    (backtest tblJump).portfolio_value.length =
      (tblJump.dates.length - LOOKBACK_MOM) + 1 := by
  exact ⟨by decide, (claim_C2_theorem tblJump (by decide)).2.1⟩

/-- C3, as stated, is false: on tblJump (all defined prices positive) the
rebalance buy on row 91 debits cost plus commission against the whole equity
and leaves the cash balance at -50. -/
theorem claim_C3_counterexample :
    (backtest tblJump).cash = -50 ∧ (backtest tblJump).cash < 0 := by
  rw [backtest_jump]
  norm_num

/-- C3 (amended): with positive prices, stop-loss and rebalance liquidations
never decrease cash, and commissions stay nonnegative, but a rebalance buy
may overdraw cash by up to the commissions charged: throughout the run cash
is bounded below by minus the total commissions paid, not by zero. -/
theorem claim_C3_theorem (tbl : PriceTable)
    (hpos : ∀ t ∈ tbl.tickers, ∀ i, i < tbl.dates.length →
      ∀ p, tbl.price t i = some p → 0 < p)
    (k : ℕ) (hk : k ≤ tbl.dates.length - LOOKBACK_MOM) :
    -(backtestUpTo tbl k).total_commissions ≤ (backtestUpTo tbl k).cash ∧
    0 ≤ (backtestUpTo tbl k).total_commissions ∧
    ∀ (cp : String → Option ℚ) (s : EngineState),
      (∀ h ∈ s.holdings, ∀ p, cp h.1 = some p → 0 < p) →
      (∀ h ∈ s.holdings, 0 < h.2.qty) →
      s.cash ≤ (stopLossPass cp s).cash := by
  obtain ⟨i1, i2, _⟩ := backtest_inv tbl hpos k hk
  refine ⟨i2, i1, ?_⟩
  intro cp s hcp hq
  show s.cash ≤ s.cash + ((slTriggered cp s.holdings).map (netProceeds cp)).sum
  have hnn : 0 ≤ ((slTriggered cp s.holdings).map (netProceeds cp)).sum := by
    apply List.sum_nonneg
    intro y hy
    rcases List.mem_map.mp hy with ⟨h, hh, rfl⟩
    rcases slTriggered_mem hh with ⟨hin, p, hp, _⟩
    unfold netProceeds
    rw [hp]
    simp only [Option.getD_some]
    have hq1 := hq h hin
    have hp1 := hcp h hin p hp
    have hsv : 0 ≤ (h.2.qty : ℚ) * p := by positivity
    have hcap := calc_commission_le_cap ((h.2.qty : ℚ) * p)
    rw [abs_of_nonneg hsv] at hcap
    have hle : calc_commission ((h.2.qty : ℚ) * p) ≤ (h.2.qty : ℚ) * p := by
      have : (h.2.qty : ℚ) * p * MAX_COMMISSION_PCT ≤ (h.2.qty : ℚ) * p := by
        rw [MAX_COMMISSION_PCT]
        nlinarith
      linarith
    linarith
  linarith

/-- C3 witness: the amended bound applied to the full tblJump run, whose
prices are all positive. -/
theorem claim_C3_witness :
    (∀ t ∈ tblJump.tickers, ∀ i, i < tblJump.dates.length →
      ∀ p, tblJump.price t i = some p → 0 < p) ∧
    2 ≤ tblJump.dates.length - LOOKBACK_MOM ∧
    -(backtestUpTo tblJump 2).total_commissions ≤ (backtestUpTo tblJump 2).cash := by
  have hpos : ∀ t ∈ tblJump.tickers, ∀ i, i < tblJump.dates.length →
      ∀ p, tblJump.price t i = some p → 0 < p := by
    intro t ht i hi p hp
    unfold tblJump at hp
    dsimp only at hp
    split_ifs at hp
    · injection hp with h
      rw [← h]
      norm_num
    · injection hp with h
      rw [← h]
      norm_num
  exact ⟨hpos, by decide, (claim_C3_theorem tblJump hpos 2 (by decide)).1⟩

/-- C4, as stated, is false: a zero trade value satisfies the premise
(0 * rate < min_commission) but its commission is 0, not the floor — the cap
dominates for small notionals. -/
theorem claim_C4_counterexample :
    |(0:ℚ)| * COMMISSION_RATE < MIN_COMMISSION ∧
    calc_commission 0 ≠ MIN_COMMISSION ∧ calc_commission 0 = 0 := by
  norm_num [calc_commission, COMMISSION_RATE, MIN_COMMISSION, MAX_COMMISSION_PCT]

/-- C4 (amended): when abs(v) * rate is below the floor, the commission is
min(MIN_COMMISSION, abs(v) * MAX_COMMISSION_PCT): the floor applies only when
the cap allows it; in particular commission(0) = 0. -/
theorem claim_C4_theorem (v : ℚ) (h : |v| * COMMISSION_RATE < MIN_COMMISSION) :
    calc_commission v = min MIN_COMMISSION (|v| * MAX_COMMISSION_PCT) := by
  unfold calc_commission
  rw [max_eq_right (le_of_lt h)]

/-- C4 witness: the amended rule at trade value 100 (commission 0.5). -/
theorem claim_C4_witness :
    |(100:ℚ)| * COMMISSION_RATE < MIN_COMMISSION ∧
    calc_commission 100 = min MIN_COMMISSION (|(100:ℚ)| * MAX_COMMISSION_PCT) :=
  ⟨by norm_num [COMMISSION_RATE, MIN_COMMISSION],
    claim_C4_theorem 100 (by norm_num [COMMISSION_RATE, MIN_COMMISSION])⟩

/-- C5: a held position with a defined price whose return since entry is at or
below the stop-loss threshold is collected by the stop-loss pass, removed from
holdings, and cash is credited with the net proceeds of every triggered
position — each contributing exactly qty * price - commission(qty * price);
the engine step runs the stop-loss pass before the rebalance pass. -/
theorem claim_C5_theorem (tbl : PriceTable) (i : ℕ) (cp : String → Option ℚ)
    (s : EngineState) (t : String) (pos : Position) (p : ℚ)
    (hmem : (t, pos) ∈ s.holdings) (hp : cp t = some p)
    (hret : (p - pos.entry_price) / pos.entry_price ≤ STOP_LOSS_PCT) :
    (t, pos) ∈ slTriggered cp s.holdings ∧
    t ∉ ((stopLossPass cp s).holdings.map Prod.fst) ∧
    (stopLossPass cp s).cash =
      s.cash + ((slTriggered cp s.holdings).map (netProceeds cp)).sum ∧
    netProceeds cp (t, pos) = (pos.qty : ℚ) * p - calc_commission ((pos.qty : ℚ) * p) ∧
    engineStep tbl s i =
      valuationPass (tbl.dates.getD i 0) (fun u => tbl.price u i)
        (rebalancePass tbl (tbl.dates.getD i 0) (fun u => tbl.price u i)
          (stopLossPass (fun u => tbl.price u i) s)) := by
  have htrig := slTriggered_of hmem hp hret
  refine ⟨htrig, stopLossPass_removes htrig, rfl, ?_, rfl⟩
  unfold netProceeds
  rw [show (t, pos).1 = t from rfl, hp]
  rfl

/-- C5 witness: a ten-share TSLA position bought at 100 with the price at 90
(a ten percent loss) is liquidated by the stop-loss pass. -/
theorem claim_C5_witness :
    (("TSLA", (⟨10, 100⟩ : Position)) ∈ stateSL.holdings) ∧
    (((90:ℚ) - 100) / 100 ≤ STOP_LOSS_PCT) ∧
    "TSLA" ∉ ((stopLossPass (fun _ => some 90) stateSL).holdings.map Prod.fst) := by
  refine ⟨by simp [stateSL], by norm_num [STOP_LOSS_PCT], ?_⟩
  exact (claim_C5_theorem tblTiny 0 (fun _ => some 90) stateSL "TSLA" ⟨10, 100⟩ 90
    (by simp [stateSL]) rfl (by norm_num [STOP_LOSS_PCT])).2.1

/-- C6: for every date position and table, the selection holds at most TOP_N
tickers, every category occupies at most MAX_SECTOR_WEIGHT of the TOP_N
slots, every selected raw score is strictly positive, and the returned
allocation carries exactly the selected tickers. -/
theorem claim_C6_theorem (loc : ℕ) (tbl : PriceTable) :
    (rank_sel loc tbl).length ≤ TOP_N ∧
    (∀ c : String, (countCat c (rank_sel loc tbl) : ℚ) / (TOP_N : ℚ) ≤ MAX_SECTOR_WEIGHT) ∧
    (∀ x ∈ rank_sel loc tbl, 0 < scoreR x.2) ∧
    (weightsOf (rank_sel loc tbl)).map Prod.fst = (rank_sel loc tbl).map Prod.fst := by
  refine ⟨rank_sel_length loc tbl, rank_sel_cap loc tbl, ?_, weightsOf_fst _⟩
  intro x hx
  have h := rank_sel_mem hx
  exact scoreR_pos h.2.2.2.2 h.2.2.2.1

/-- C6 witness: the bounds instantiated on the tblJump selection. -/
theorem claim_C6_witness :
    (rank_sel 91 tblJump).length ≤ TOP_N ∧ 0 < scoreR ((1:ℚ)/90, (1:ℚ)/30) := by
  refine ⟨(claim_C6_theorem 91 tblJump).1, ?_⟩
  exact (claim_C6_theorem 91 tblJump).2.2.1 ("TSLA", 1/90, 1/30)
    (by rw [rank_sel_jump]; simp)

/-- C7: the returned weights are exactly each selected raw score divided by
the sum of the selected raw scores, and for a non-empty selection they sum to
one. -/
theorem claim_C7_theorem (loc : ℕ) (tbl : PriceTable) (hne : rank_sel loc tbl ≠ []) :
    weightsOf (rank_sel loc tbl) =
      (rank_sel loc tbl).map (fun c =>
        (c.1, scoreR c.2 / ((rank_sel loc tbl).map (fun d => scoreR d.2)).sum)) ∧
    ((weightsOf (rank_sel loc tbl)).map Prod.snd).sum = 1 := by
  refine ⟨rfl, ?_⟩
  apply weightsOf_sum hne
  intro x hx
  have h := rank_sel_mem hx
  exact scoreR_pos h.2.2.2.2 h.2.2.2.1

/-- C7 witness: the tblJump selection is non-empty and its weights sum to
one. -/
theorem claim_C7_witness :
    rank_sel 91 tblJump ≠ [] ∧
    ((weightsOf (rank_sel 91 tblJump)).map Prod.snd).sum = 1 := by
  have hne : rank_sel 91 tblJump ≠ [] := by
    rw [rank_sel_jump]
    simp
  exact ⟨hne, (claim_C7_theorem 91 tblJump hne).2⟩

/-- C8, as stated, is false: on tblGap the ticker TSLA has a missing price at
row 70, inside both the momentum and the volatility window of row 91, yet it
is selected (the missing value only drops the affected return rows for all
tickers; the ticker itself keeps statistics over the remaining rows). -/
theorem claim_C8_counterexample :
    tblGap.price "TSLA" 70 = none ∧
    70 ∈ winIdx 91 LOOKBACK_MOM ∧ 70 ∈ winIdx 91 LOOKBACK_VOL ∧
    ("TSLA", (1:ℚ)/44, (1:ℚ)/7) ∈ rank_sel 91 tblGap ∧
    "TSLA" ∈ (((rank_assets 95 tblGap).getD []).map Prod.fst) := by
  refine ⟨by decide, by decide, by decide, ?_, ?_⟩
  · rw [rank_sel_gap]
    simp
  · rw [rank_assets_gap]
    simp

/-- C8 (amended): a selected ticker always has a defined momentum, a defined
and strictly positive variance, and positive momentum — computed over the
rows that survive dropna — but a gap in a window does not by itself exclude
the ticker: it removes the affected rows for every ticker and the gappy
ticker can still be selected. -/
theorem claim_C8_theorem (loc : ℕ) (tbl : PriceTable) (x : String × ℚ × ℚ)
    (hx : x ∈ rank_sel loc tbl) :
    x.1 ∈ tbl.tickers ∧ momentumOf tbl loc x.1 = some x.2.1 ∧
      varianceOf tbl loc x.1 = some x.2.2 ∧ 0 < x.2.2 ∧ 0 < x.2.1 :=
  rank_sel_mem hx

/-- C8 witness: the eligibility facts instantiated on the gappy tblGap
selection. -/
theorem claim_C8_witness :
    (("TSLA", (1:ℚ)/44, (1:ℚ)/7) ∈ rank_sel 91 tblGap) ∧
    momentumOf tblGap 91 "TSLA" = some (1/44) ∧
    varianceOf tblGap 91 "TSLA" = some (1/7) := by
  have hx : ("TSLA", (1:ℚ)/44, (1:ℚ)/7) ∈ rank_sel 91 tblGap := by
    rw [rank_sel_gap]
    simp
  have h := claim_C8_theorem 91 tblGap ("TSLA", (1:ℚ)/44, (1:ℚ)/7) hx
  exact ⟨hx, h.2.1, h.2.2.1⟩

/-- C9: a date whose index position is below LOOKBACK_MOM yields the empty
allocation — returned normally, not an error — and on such a date the
rebalance pass leaves the whole engine state (holdings included) unchanged,
whether or not it is a rebalance weekday. -/
theorem claim_C9_theorem (tbl : PriceTable) (date loc : ℕ)
    (h1 : get_loc tbl date = some loc) (h2 : loc < LOOKBACK_MOM) :
    rank_assets date tbl = some [] ∧
    ∀ (cp : String → Option ℚ) (s : EngineState), rebalancePass tbl date cp s = s := by
  have hr : rank_assets date tbl = some [] := by
    unfold rank_assets
    rw [h1]
    simp only [Option.map_some']
    rw [rank_sel, if_pos h2]
    rfl
  refine ⟨hr, fun cp s => ?_⟩
  apply rebalancePass_empty
  rw [hr]
  rfl

/-- C9 witness: on the ten-row table, date 3 sits at position 3 < 90 and the
rebalance pass is the identity. -/
theorem claim_C9_witness :
    get_loc tblTiny 3 = some 3 ∧ 3 < LOOKBACK_MOM ∧
    rank_assets 3 tblTiny = some [] ∧
    rebalancePass tblTiny 3 (fun _ => none) stateSL = stateSL := by
  have h := claim_C9_theorem tblTiny 3 3 (by decide) (by decide)
  exact ⟨by decide, by decide, h.1, h.2 (fun _ => none) stateSL⟩

/-- C10: for a date absent from the index, rank_assets fails (the get_loc
lookup raises, modelled as none) instead of returning an empty allocation;
and for every loop position of the simulation engine — which calls the ranker
only with dates drawn from the index — the lookup succeeds, so the failure
branch is unreachable from the engine. -/
theorem claim_C10_theorem (tbl : PriceTable) :
    (∀ d, d ∉ tbl.dates → rank_assets d tbl = none) ∧
    (∀ i, LOOKBACK_MOM ≤ i → i < tbl.dates.length →
      ∃ w, rank_assets (tbl.dates.getD i 0) tbl = some w) := by
  constructor
  · intro d hd
    unfold rank_assets
    rw [get_loc_eq_none hd]
    rfl
  · intro i _ hi
    have hm : tbl.dates.getD i 0 ∈ tbl.dates := by
      rw [List.getD_eq_getElem tbl.dates 0 hi]
      exact List.getElem_mem hi
    rcases get_loc_isSome hm with ⟨j, hj⟩
    refine ⟨weightsOf (rank_sel j tbl), ?_⟩
    unfold rank_assets
    rw [hj]
    rfl

/-- C10 witness: date 3 is absent from tblJump and the ranker fails on it,
while the engine call at position 90 succeeds. -/
theorem claim_C10_witness :
    (3 ∉ tblJump.dates) ∧ rank_assets 3 tblJump = none ∧
    (LOOKBACK_MOM ≤ 90 ∧ 90 < tblJump.dates.length) ∧
    (∃ w, rank_assets (tblJump.dates.getD 90 0) tblJump = some w) := by
  have h := claim_C10_theorem tblJump
  exact ⟨by decide, h.1 3 (by decide), ⟨by decide, by decide⟩,
    h.2 90 (by decide) (by decide)⟩
